import Mathlib

/-!
Verification development for the KoStore download worker
(src/workers/download_worker.py).

The filesystem is modelled as a tree of named entries.  The plugin-root
locator and the download pipeline are translated from the Python source;
external effects (network fetches, archive extraction, filesystem faults)
are supplied by an environment record describing the outcome of each call.
-/

namespace KoStore

/-- A filesystem entry: a file with its content, or a directory with a list
of named children.  The list order models the listing order used by the
directory traversal. -/
inductive Entry where
  | file (content : String)
  | dir (children : List (String × Entry))

/-- A filesystem path, as the list of path components. -/
abbrev FsPath := List String

/-- First-match association-list lookup among the children of a directory. -/
def lookupAssoc : List (String × Entry) → String → Option Entry
  | [], _ => none
  | (m, c) :: rest, n => if m = n then some c else lookupAssoc rest n

/-- Children of an entry (a file has none). -/
def Entry.childrenOf : Entry → List (String × Entry)
  | .file _ => []
  | .dir cs => cs

/-- Look up the entry at a path below a root entry. -/
def fsLookup : Entry → FsPath → Option Entry
  | e, [] => some e
  | e, n :: p =>
    match lookupAssoc e.childrenOf n with
    | some c => fsLookup c p
    | none => none

/-- Replace the binding for a name in an association list, or append it. -/
def setAssoc : List (String × Entry) → String → Entry → List (String × Entry)
  | [], n, v => [(n, v)]
  | (m, c) :: rest, n, v => if m = n then (m, v) :: rest else (m, c) :: setAssoc rest n v

/-- Write an entry at a path, creating intermediate directories as needed and
overwriting whatever was there. -/
def fsSet : Entry → FsPath → Entry → Entry
  | _, [], v => v
  | e, n :: p, v =>
    let c0 := match lookupAssoc e.childrenOf n with
      | some c => c
      | none => Entry.dir []
    Entry.dir (setAssoc e.childrenOf n (fsSet c0 p v))

/-- Remove every binding for a name from an association list. -/
def removeAssoc (cs : List (String × Entry)) (n : String) : List (String × Entry) :=
  cs.filter (fun x => x.1 != n)

/-- Remove the entry at a path (recursive removal, like shutil.rmtree). -/
def fsRemove : Entry → FsPath → Entry
  | e, [] => e
  | Entry.file c, _ :: _ => Entry.file c
  | Entry.dir cs, [n] => Entry.dir (removeAssoc cs n)
  | Entry.dir cs, n :: m :: p =>
    match lookupAssoc cs n with
    | none => Entry.dir cs
    | some c => Entry.dir (setAssoc cs n (fsRemove c (m :: p)))

/-- Existence test for a path. -/
def fsExists (e : Entry) (p : FsPath) : Bool := (fsLookup e p).isSome

/-- Boolean test: the first path is an initial segment of the second. -/
def leadsInto : FsPath → FsPath → Bool
  | [], _ => true
  | _ :: _, [] => false
  | a :: p, b :: q => a == b && leadsInto p q

/-- Two paths diverge when neither is an initial segment of the other, so the
subtrees they address are disjoint. -/
def diverges (p q : FsPath) : Bool := !(leadsInto p q) && !(leadsInto q p)

/-- The names of the children of a directory that are plain files, in listing
order: the files component of one os.walk step. -/
def filesOf : List (String × Entry) → List String
  | [] => []
  | (n, Entry.file _) :: rest => n :: filesOf rest
  | (_, Entry.dir _) :: rest => filesOf rest

/-- Boolean membership in a list of names. -/
def namesHas : List String → String → Bool
  | [], _ => false
  | a :: rest, n => a == n || namesHas rest n

/-- The per-directory test of the os.walk loop in find_plugin_root: both
marker names occur among the file children. -/
def walkCheck (cs : List (String × Entry)) : Bool :=
  namesHas (filesOf cs) "main.lua" && namesHas (filesOf cs) "_meta.lua"

mutual
/-- The os.walk loop of find_plugin_root: visit a directory, then its
subdirectories in listing order (topdown traversal), and return the path of
the first directory whose file children include both markers. -/
def walkFind : Entry → Option FsPath
  | .file _ => none
  | .dir cs => if walkCheck cs then some [] else walkList cs

/-- The continuation of the os.walk loop over the remaining children. -/
def walkList : List (String × Entry) → Option FsPath
  | [] => none
  | (_, Entry.file _) :: rest => walkList rest
  | (n, Entry.dir cs) :: rest =>
    match walkFind (Entry.dir cs) with
    | some q => some (n :: q)
    | none => walkList rest
end

/-- The direct-root check of find_plugin_root: both marker names exist among
the children of the base (Path.exists is true for a file entry and for a
directory entry alike). -/
def bothMarkersExist (e : Entry) : Bool :=
  (lookupAssoc e.childrenOf ("main.lua")).isSome
    && (lookupAssoc e.childrenOf ("_meta.lua")).isSome

/-- find_plugin_root from the source.  The direct-root check tests the bare
existence of the two names among the children of the base directory;
otherwise the os.walk search runs, and that one requires the two markers to
be file children.  The returned path is relative to the base. -/
def find_plugin_root (base : Entry) : Option FsPath :=
  if bothMarkersExist base then some []
  else walkFind base

/-- Test for a file entry. -/
def isFileE : Entry → Bool
  | .file _ => true
  | .dir _ => false

/-- Specification predicate: the directory directly contains both marker
files, each as a plain file child. -/
def hasBothMarkerFiles (e : Entry) : Bool :=
  (e.childrenOf.any fun x => x.1 == "main.lua" && isFileE x.2)
    && (e.childrenOf.any fun x => x.1 == "_meta.lua" && isFileE x.2)

mutual
/-- All directories of a tree paired with their paths, in the deterministic
topdown traversal order used by os.walk. -/
def preorder : Entry → List (FsPath × Entry)
  | .file _ => []
  | .dir cs => ([], Entry.dir cs) :: preorderL cs

/-- The directory listing of a tree, continued over a list of children. -/
def preorderL : List (String × Entry) → List (FsPath × Entry)
  | [] => []
  | (n, e) :: rest => (preorder e).map (fun x => (n :: x.1, x.2)) ++ preorderL rest
end

/-- One list of characters starts with another. -/
def listStartsWith : List Char → List Char → Bool
  | _, [] => true
  | [], _ :: _ => false
  | a :: s, b :: t => a == b && listStartsWith s t

/-- The endswith test of Python strings, as a suffix test on the character
lists of the two strings. -/
def pyEndsWith (s tail : String) : Bool :=
  listStartsWith s.data.reverse tail.data.reverse

/-- The install-name derivation from DownloadWorker.run: append the fixed
extension ".koplugin" when the candidate directory name does not already end
with it. -/
def deriveName (nm : String) : String :=
  if pyEndsWith nm (".koplugin") then nm else nm ++ ".koplugin"

/-- Path.name of a path: its last component. -/
def pathName (p : FsPath) : String := p.getLastD ("")

/-- Events observable from a pipeline run: progress signals, finished
signals, and the attempt to remove the temporary workspace. -/
inductive Ev where
  | prog (msg : String)
  | fin (ok : Bool) (msg : String)
  | cleanup
deriving DecidableEq

/-- One entry of the patch list returned by the remote API. -/
structure PatchFile where
  name : String
  download_url : String
deriving DecidableEq

/-- The environment of one run: the initial filesystem and the outcome of
every external call the worker makes.  An `Except` value records whether the
call returns normally or raises, with the detail string of the exception.
The temporary directory path chosen by mkdtemp is part of the environment;
each per-url patch download is a function of the url. -/
structure Env where
  fs0 : Entry
  item_type : String
  ownerLogin : Except String String
  repoName : Except String String
  install_path : FsPath
  is_update : Bool
  zipFetch : Except String (Option String)
  tempPath : FsPath
  mkdtempOk : Except String Unit
  writeZipOk : Except String Unit
  unzip : Except String (List (String × Entry))
  rmtreeTargetOk : Except String Unit
  copyOk : Except String Unit
  patchList : Except String (Option (List PatchFile))
  patchGet : String → Except String String
  rmtreeTempOk : Bool

/-- The mutable state of a run: the filesystem, the ordered event trace, and
the temp-dir local variable (some once mkdtemp has returned). -/
structure St where
  fs : Entry
  evs : List Ev
  temp : Option FsPath

/-- Emit a progress event. -/
def emitP (s : St) (m : String) : St := { s with evs := s.evs ++ [Ev.prog m] }

/-- Emit a finished event. -/
def emitF (s : St) (ok : Bool) (m : String) : St :=
  { s with evs := s.evs ++ [Ev.fin ok m] }

/-- Python truthiness of the fetched archive bytes: None and empty are falsy. -/
def pyFalsy : Option String → Bool
  | none => true
  | some s => s.isEmpty

/-- Python truthiness of the patch list: None and the empty list are falsy. -/
def pyFalsyList : Option (List PatchFile) → Bool
  | none => true
  | some l => l.isEmpty

/-- Whether an external call returns normally. -/
def exOk : Except String String → Bool
  | .ok _ => true
  | .error _ => false

/-- The per-patch loop of the patch branch: fetch each patch from its url and
write it under the patches directory, overwriting an existing file of the
same name.  A raised exception aborts the loop and carries the state. -/
def patchLoop (env : Env) (pdir : FsPath) : List PatchFile → St → Except (String × St) St
  | [], s => .ok s
  | p :: rest, s =>
    match env.patchGet p.download_url with
    | .error e => .error (e, s)
    | .ok txt =>
      patchLoop env pdir rest { s with fs := fsSet s.fs (pdir ++ [p.name]) (Entry.file txt) }

/-- Run the patch loop and emit the success outcome counting the patches. -/
def patchInstall (env : Env) (pdir : FsPath) (pats : List PatchFile) (s : St) :
    Except (String × St) St :=
  match patchLoop env pdir pats s with
  | .error es => .error es
  | .ok s => .ok (emitF s true (toString pats.length ++ " patch(es) installed!"))

/-- The patch branch of DownloadWorker.run.  patch_dir.mkdir(exist_ok=True)
succeeds when the patches entry is already a directory, raises when a file
is in the way or the install root is missing, and creates the directory
otherwise. -/
def patchRun (env : Env) (s : St) : Except (String × St) St :=
  match env.patchList with
  | .error e => .error (e, s)
  | .ok pl =>
    if pyFalsyList pl then .ok (emitF s false ("No patches found"))
    else
      let pats := pl.getD []
      let s := emitP s ("Downloading patches...")
      let pdir := env.install_path ++ ["patches"]
      match fsLookup s.fs env.install_path with
      | some (Entry.dir _) =>
        match fsLookup s.fs pdir with
        | some (Entry.file _) => .error ("FileExistsError", s)
        | some (Entry.dir _) => patchInstall env pdir pats s
        | none => patchInstall env pdir pats { s with fs := fsSet s.fs pdir (Entry.dir []) }
      | _ => .error ("FileNotFoundError", s)

/-- The plugin branch of DownloadWorker.run, in source order: progress,
archive fetch, truthiness check, mkdtemp, write of the zip file, progress,
extraction into the workspace, progress, plugin-root location, name
derivation, progress, replacement of the install target, copy, success
outcome.  Early returns produce .ok; raised exceptions produce .error and
carry the state reached so far. -/
def pluginRun (env : Env) (repo : String) (s : St) : Except (String × St) St :=
  let s := emitP s ("Downloading " ++ repo ++ "...")
  match env.zipFetch with
  | .error e => .error (e, s)
  | .ok zc =>
    if pyFalsy zc then .ok (emitF s false ("Failed to download repository"))
    else
      match env.mkdtempOk with
      | .error e => .error (e, s)
      | .ok _ =>
        let s : St := { s with fs := fsSet s.fs env.tempPath (Entry.dir []),
                               temp := some env.tempPath }
        match env.writeZipOk with
        | .error e => .error (e, s)
        | .ok _ =>
          let s : St := { s with
            fs := fsSet s.fs (env.tempPath ++ [repo ++ ".zip"]) (Entry.file (zc.getD (""))) }
          let s := emitP s ("Extracting...")
          match env.unzip with
          | .error e => .error (e, s)
          | .ok entries =>
            let s : St := { s with
              fs := entries.foldl (fun fs x => fsSet fs (env.tempPath ++ [x.1]) x.2) s.fs }
            let s := emitP s ("Analyzing plugin structure...")
            match (match fsLookup s.fs env.tempPath with
                   | some t => find_plugin_root t
                   | none => none) with
            | none =>
              .ok (emitF s false
                "No valid plugin structure found (main.lua/_meta.lua missing)")
            | some rel =>
              let plugin_name := deriveName (pathName (env.tempPath ++ rel))
              let s := emitP s ("Installing...")
              let target := env.install_path ++ ["plugins", plugin_name]
              let step1 : Except (String × St) St :=
                if fsExists s.fs target then
                  match env.rmtreeTargetOk with
                  | .error e => .error (e, s)
                  | .ok _ => .ok { s with fs := fsRemove s.fs target }
                else .ok s
              match step1 with
              | .error es => .error es
              | .ok s =>
                match env.copyOk with
                | .error e => .error (e, s)
                | .ok _ =>
                  let sub := match fsLookup s.fs (env.tempPath ++ rel) with
                    | some t => t
                    | none => Entry.dir []
                  let s : St := { s with fs := fsSet s.fs target sub }
                  let msg := if env.is_update then repo ++ " updated successfully!"
                    else repo ++ " installed successfully!"
                  .ok (emitF s true msg)

/-- The try block of DownloadWorker.run: read the owner and the repository
name from the item data (a missing key raises), then dispatch on the kind
tag; an unknown kind falls through silently. -/
def runBody (env : Env) (s : St) : Except (String × St) St :=
  match env.ownerLogin with
  | .error e => .error (e, s)
  | .ok _ =>
    match env.repoName with
    | .error e => .error (e, s)
    | .ok repo =>
      if env.item_type = "plugin" then pluginRun env repo s
      else if env.item_type = "patch" then patchRun env s
      else .ok s

/-- The initial state of a run. -/
def initSt (env : Env) : St := ⟨env.fs0, [], none⟩

/-- The finally block of DownloadWorker.run: when the temp-dir variable was
assigned and the directory still exists, attempt its recursive removal; a
failing removal is only logged and changes nothing else. -/
def finallyStep (env : Env) (s1 : St) : St :=
  match s1.temp with
  | none => s1
  | some p =>
    if fsExists s1.fs p then
      let s2 : St := { s1 with evs := s1.evs ++ [Ev.cleanup] }
      if env.rmtreeTempOk then { s2 with fs := fsRemove s2.fs p } else s2
    else s1

/-- The whole of DownloadWorker.run: the try block, the generic except
clause converting a raised exception into the terminal outcome, and the
finally block. -/
def run (env : Env) : St :=
  finallyStep env
    (match runBody env (initSt env) with
     | .ok s => s
     | .error (e, s) => emitF s false ("Error: " ++ e))

/-- The content of the workspace after extraction, computed in isolation:
the zip file written by the worker plus the extracted archive entries. -/
def buildTemp (repo zc : String) (entries : List (String × Entry)) : Entry :=
  entries.foldl (fun t x => fsSet t [x.1] x.2)
    (Entry.dir [(repo ++ ".zip", Entry.file zc)])

/-- Recognizer for finished events. -/
def isFin : Ev → Bool
  | .fin _ _ => true
  | _ => false

/-- The finished events of a state, in emission order. -/
def finEvs (s : St) : List Ev := s.evs.filter isFin

/-- The pipeline phase an event belongs to, as a rank in the linear state
order: 1 downloading, 2 extracting, 3 locating, 4 staging and committing,
5 terminal outcome, 6 workspace cleanup. -/
def evRank : Ev → Nat
  | .prog m =>
    if m = "Extracting..." then 2
    else if m = "Analyzing plugin structure..." then 3
    else if m = "Installing..." then 4
    else 1
  | .fin _ _ => 5
  | .cleanup => 6

/-- Boolean test that a list of ranks is strictly increasing. -/
def strictIncr : List Nat → Bool
  | [] => true
  | [_] => true
  | a :: b :: l => decide (a < b) && strictIncr (b :: l)

/-- The events appended by a phase of the run form a strictly increasing
chain of phase ranks bounded by hi. -/
def ranksOk (t : List Ev) (hi : Nat) : Prop :=
  strictIncr (t.map evRank) = true ∧ ∀ n ∈ t.map evRank, n ≤ hi

/-- Events appended between two states: a chain of ranks bounded by hi, with
cnt finished events among them. -/
def deltaEvs (s s' : St) (hi cnt : Nat) : Prop :=
  ∃ t, s'.evs = s.evs ++ t ∧ ranksOk t hi ∧ (t.filter isFin).length = cnt

/-- Event specification of a step result: a normal return appended a chain
bounded by the terminal rank with cnt finished events, a raised exception
appended a chain of progress ranks only, with no finished event. -/
def evSpec (r : Except (String × St) St) (s : St) (cnt : Nat) : Prop :=
  (∀ s', r = .ok s' → deltaEvs s s' 5 cnt) ∧
  (∀ e s', r = .error (e, s') → deltaEvs s s' 4 0)

/-- Workspace invariant at the end of the try block: either no workspace was
created, or the temp-dir variable holds the workspace path and the workspace
still exists on the filesystem. -/
def tempInv (env : Env) (s' : St) : Prop :=
  s'.temp = none ∨ (s'.temp = some env.tempPath ∧ fsExists s'.fs env.tempPath = true)

/-- The entry at a path is a directory. -/
def isDirAt (fs : Entry) (p : FsPath) : Bool :=
  match fsLookup fs p with
  | some (Entry.dir _) => true
  | _ => false

/-- No file entry sits at the path (the entry is absent or a directory). -/
def noFileAt (fs : Entry) (p : FsPath) : Bool :=
  match fsLookup fs p with
  | some (Entry.file _) => false
  | _ => true

/-- The PluginBundle failure modes that occur before the copy step: a raised
or empty archive download, a failed workspace creation, a failed zip write,
a failed extraction, or no plugin root located in the workspace. -/
def failsBeforeCopy (env : Env) (repo : String) : Bool :=
  match env.zipFetch with
  | .error _ => true
  | .ok zc =>
    if pyFalsy zc then true
    else match env.mkdtempOk with
      | .error _ => true
      | .ok _ => match env.writeZipOk with
        | .error _ => true
        | .ok _ => match env.unzip with
          | .error _ => true
          | .ok entries =>
            (find_plugin_root (buildTemp repo (zc.getD ("")) entries)).isNone

/-- A base concrete environment for witness runs: a plugin run against an
empty install root, with the archive fetch returning nothing. -/
def baseEnv : Env where
  fs0 := Entry.dir [("ko", Entry.dir [])]
  item_type := "plugin"
  ownerLogin := .ok ("x")
  repoName := .ok ("y")
  install_path := ["ko"]
  is_update := false
  zipFetch := .ok none
  tempPath := ["tmp", "t1"]
  mkdtempOk := .ok ()
  writeZipOk := .ok ()
  unzip := .ok []
  rmtreeTargetOk := .ok ()
  copyOk := .ok ()
  patchList := .ok none
  patchGet := fun _ => .ok ("T")
  rmtreeTempOk := true

/-- A base whose marker-named entries are a directory and a file. -/
def cexC1base : Entry :=
  Entry.dir [("main.lua", Entry.dir []), ("_meta.lua", Entry.file ("x"))]

/-- A base with both marker files at top level. -/
def wC1base : Entry :=
  Entry.dir [("main.lua", Entry.file ("m")), ("_meta.lua", Entry.file ("t"))]

/-- A patch run whose item data is missing the owner key. -/
def wEnvC2 : Env := { baseEnv with item_type := "patch", ownerLogin := .error ("KeyError") }

/-- A plugin run that fails while writing the fetched archive to disk. -/
def wEnvC3 : Env := { baseEnv with zipFetch := .ok (some ("Z")), writeZipOk := .error ("disk") }

/-- A repository-style archive: one top-level directory holding a
.koplugin directory with both markers and one payload file. -/
def goodEntries : List (String × Entry) :=
  [("repo-main", Entry.dir [("cool.koplugin", Entry.dir
    [("main.lua", Entry.file ("m")), ("_meta.lua", Entry.file ("t")),
     ("other.lua", Entry.file ("o"))])])]

/-- The plugin directory inside goodEntries. -/
def wSubT : Entry :=
  Entry.dir [("main.lua", Entry.file ("m")), ("_meta.lua", Entry.file ("t")),
    ("other.lua", Entry.file ("o"))]

/-- A successful plugin install run. -/
def wEnvC5 : Env := { baseEnv with zipFetch := .ok (some ("Z")), unzip := .ok goodEntries }

/-- A failed download against an install root that already holds an older
install target. -/
def wEnvC6 : Env :=
  { baseEnv with
    fs0 := Entry.dir [("ko", Entry.dir [("plugins", Entry.dir
      [("old.koplugin", Entry.dir [("main.lua", Entry.file ("old"))])])])] }

/-- A patch run with two patches to install. -/
def wEnvC7 : Env :=
  { baseEnv with
    item_type := "patch",
    patchList := .ok (some [⟨"a.lua", "u1"⟩, ⟨"b.lua", "u2"⟩]) }

/-- A plugin run that creates the workspace and then fails, used to observe
the position of the cleanup step in the event trace. -/
def cexEnvC9 : Env := { baseEnv with zipFetch := .ok (some ("Z")), writeZipOk := .error ("disk") }

/-- A run with an undocumented kind tag. -/
def wEnvC10 : Env := { baseEnv with item_type := "theme" }

theorem leadsInto_self_append (p r : FsPath) : leadsInto p (p ++ r) = true := by
  induction p with
  | nil => simp [leadsInto]
  | cons a p ih => simp [leadsInto, ih]

theorem leadsInto_trans {a b c : FsPath} (h1 : leadsInto a b = true)
    (h2 : leadsInto b c = true) : leadsInto a c = true := by
  induction a generalizing b c with
  | nil => simp [leadsInto]
  | cons x a ih =>
    cases b with
    | nil => simp [leadsInto] at h1
    | cons y b =>
      cases c with
      | nil => simp [leadsInto] at h2
      | cons z c =>
        simp [leadsInto] at h1 h2 ⊢
        exact ⟨h1.1.trans h2.1, ih h1.2 h2.2⟩

theorem leadsInto_split {a b c : FsPath} (h : leadsInto a (b ++ c) = true) :
    leadsInto a b = true ∨ leadsInto b a = true := by
  induction b generalizing a with
  | nil => right; simp [leadsInto]
  | cons x b ih =>
    cases a with
    | nil => left; simp [leadsInto]
    | cons y a =>
      simp [leadsInto] at h ⊢
      rcases ih h.2 with h2 | h2
      · left; exact ⟨h.1, h2⟩
      · right; exact ⟨h.1.symm, h2⟩

theorem diverges_comm (p q : FsPath) : diverges p q = diverges q p := by
  simp [diverges, Bool.and_comm]

theorem diverges_extend {p q : FsPath} (h : diverges p q = true) (l m : FsPath) :
    diverges (p ++ l) (q ++ m) = true := by
  simp only [diverges, Bool.and_eq_true, Bool.not_eq_true'] at h ⊢
  constructor
  · rw [Bool.eq_false_iff]
    intro hlead
    rcases leadsInto_split hlead with h2 | h2
    · have h3 := leadsInto_trans (leadsInto_self_append p l) h2
      rw [h.1] at h3; exact Bool.false_ne_true h3
    · rcases leadsInto_split h2 with h3 | h3
      · rw [h.2] at h3; exact Bool.false_ne_true h3
      · rw [h.1] at h3; exact Bool.false_ne_true h3
  · rw [Bool.eq_false_iff]
    intro hlead
    rcases leadsInto_split hlead with h2 | h2
    · have h3 := leadsInto_trans (leadsInto_self_append q m) h2
      rw [h.2] at h3; exact Bool.false_ne_true h3
    · rcases leadsInto_split h2 with h3 | h3
      · rw [h.1] at h3; exact Bool.false_ne_true h3
      · rw [h.2] at h3; exact Bool.false_ne_true h3

theorem lookupAssoc_setAssoc_self (cs : List (String × Entry)) (n : String) (v : Entry) :
    lookupAssoc (setAssoc cs n v) n = some v := by
  induction cs with
  | nil => simp [setAssoc, lookupAssoc]
  | cons x rest ih =>
    obtain ⟨m, c⟩ := x
    by_cases h : m = n <;> simp [setAssoc, lookupAssoc, h, ih]

theorem lookupAssoc_setAssoc_other (cs : List (String × Entry)) {n n' : String}
    (hne : n' ≠ n) (v : Entry) :
    lookupAssoc (setAssoc cs n v) n' = lookupAssoc cs n' := by
  induction cs with
  | nil => simp [setAssoc, lookupAssoc, Ne.symm hne]
  | cons x rest ih =>
    obtain ⟨m, c⟩ := x
    simp only [setAssoc]
    by_cases h : m = n
    · subst h
      have hmn : ¬ (m = n') := fun hc => hne hc.symm
      simp [lookupAssoc, hmn]
    · simp only [if_neg h, lookupAssoc]
      by_cases h2 : m = n' <;> simp [h2, ih]

theorem fsLookup_fsSet_self (p : FsPath) (fs v : Entry) :
    fsLookup (fsSet fs p v) p = some v := by
  induction p generalizing fs with
  | nil => simp [fsSet, fsLookup]
  | cons n p ih =>
    simp only [fsSet, fsLookup, Entry.childrenOf, lookupAssoc_setAssoc_self]
    exact ih _

theorem fsLookup_fsSet_deeper (p : FsPath) (fs t : Entry) (q : FsPath) (v : Entry)
    (h : fsLookup fs p = some t) :
    fsLookup (fsSet fs (p ++ q) v) p = some (fsSet t q v) := by
  induction p generalizing fs with
  | nil =>
    simp [fsLookup] at h
    subst h
    simp [fsLookup]
  | cons n p ih =>
    simp only [fsLookup] at h
    cases hc : lookupAssoc fs.childrenOf n with
    | none => rw [hc] at h; exact absurd h (by simp)
    | some c =>
      rw [hc] at h
      show fsLookup (fsSet fs (n :: (p ++ q)) v) (n :: p) = some (fsSet t q v)
      simp only [fsSet, hc]
      simp only [fsLookup, Entry.childrenOf, lookupAssoc_setAssoc_self]
      exact ih c h

theorem fsLookup_fsSet_diverge {p q : FsPath} (hd : diverges p q = true)
    (fs v : Entry) : fsLookup (fsSet fs p v) q = fsLookup fs q := by
  induction p generalizing fs q with
  | nil => simp [diverges, leadsInto] at hd
  | cons a p ih =>
    cases q with
    | nil => simp [diverges, leadsInto] at hd
    | cons b q =>
      by_cases hab : a = b
      · subst hab
        have hd2 : diverges p q = true := by
          simpa [diverges, leadsInto] using hd
        have hq : fsLookup (fsSet (Entry.dir []) p v) q = none := by
          rw [ih hd2]
          cases q with
          | nil => simp [diverges, leadsInto] at hd2
          | cons x q => simp [fsLookup, Entry.childrenOf, lookupAssoc]
        cases fs with
        | file c =>
          simp only [fsSet, Entry.childrenOf, lookupAssoc, fsLookup,
            lookupAssoc_setAssoc_self]
          simpa using hq
        | dir cs =>
          simp only [fsSet, Entry.childrenOf, fsLookup, lookupAssoc_setAssoc_self]
          cases hc : lookupAssoc cs a with
          | none => simp only [hc]; exact hq
          | some c => simp only [hc]; exact ih hd2 c
      · cases fs with
        | file c =>
          simp [fsSet, Entry.childrenOf, lookupAssoc, fsLookup, setAssoc, hab]
        | dir cs =>
          simp only [fsSet, Entry.childrenOf, fsLookup]
          rw [lookupAssoc_setAssoc_other _ (fun h => hab h.symm)]

theorem lookupAssoc_removeAssoc_self (cs : List (String × Entry)) (n : String) :
    lookupAssoc (removeAssoc cs n) n = none := by
  induction cs with
  | nil => simp [removeAssoc, lookupAssoc]
  | cons x rest ih =>
    obtain ⟨m, c⟩ := x
    by_cases h : m = n
    · subst h
      simpa [removeAssoc, List.filter_cons] using ih
    · have hb : (m != n) = true := by simp [bne, h]
      simpa [removeAssoc, List.filter_cons, hb, lookupAssoc, h] using ih

theorem lookupAssoc_removeAssoc_other (cs : List (String × Entry)) {n n' : String}
    (hne : n' ≠ n) : lookupAssoc (removeAssoc cs n) n' = lookupAssoc cs n' := by
  induction cs with
  | nil => simp [removeAssoc, lookupAssoc]
  | cons x rest ih =>
    obtain ⟨m, c⟩ := x
    by_cases h : m = n
    · subst h
      have hx : ¬ (m = n') := fun hc => hne hc.symm
      simpa [removeAssoc, List.filter_cons, lookupAssoc, hx] using ih
    · have hb : (m != n) = true := by simp [bne, h]
      by_cases h2 : m = n'
      · subst h2
        simp [removeAssoc, List.filter_cons, hb, lookupAssoc]
      · simpa [removeAssoc, List.filter_cons, hb, lookupAssoc, h2] using ih

theorem fsLookup_fsRemove_self {p : FsPath} (hp : p ≠ []) (fs : Entry) :
    fsLookup (fsRemove fs p) p = none := by
  induction p generalizing fs with
  | nil => exact absurd rfl hp
  | cons n p ih =>
    cases fs with
    | file c =>
      cases p with
      | nil => simp [fsRemove, fsLookup, Entry.childrenOf, lookupAssoc]
      | cons m p => simp [fsRemove, fsLookup, Entry.childrenOf, lookupAssoc]
    | dir cs =>
      cases p with
      | nil =>
        simp [fsRemove, fsLookup, Entry.childrenOf, lookupAssoc_removeAssoc_self]
      | cons m p =>
        cases hc : lookupAssoc cs n with
        | none => simp [fsRemove, hc, fsLookup, Entry.childrenOf]
        | some c =>
          simp only [fsRemove, hc, fsLookup, Entry.childrenOf,
            lookupAssoc_setAssoc_self]
          exact ih (by simp) c

theorem fsLookup_fsRemove_diverge {p q : FsPath} (hd : diverges p q = true)
    (fs : Entry) : fsLookup (fsRemove fs p) q = fsLookup fs q := by
  induction p generalizing fs q with
  | nil => simp [diverges, leadsInto] at hd
  | cons a p ih =>
    cases q with
    | nil => simp [diverges, leadsInto] at hd
    | cons b q =>
      by_cases hab : a = b
      · subst hab
        have hd2 : diverges p q = true := by
          simpa [diverges, leadsInto] using hd
        cases fs with
        | file c => simp [fsRemove]
        | dir cs =>
          cases p with
          | nil => simp [diverges, leadsInto] at hd2
          | cons m p =>
            cases hc : lookupAssoc cs a with
            | none => simp [fsRemove, hc]
            | some c =>
              simp only [fsRemove, hc, fsLookup, Entry.childrenOf,
                lookupAssoc_setAssoc_self]
              exact ih hd2 c
      · cases fs with
        | file c => simp [fsRemove]
        | dir cs =>
          cases p with
          | nil =>
            simp only [fsRemove, fsLookup, Entry.childrenOf,
              lookupAssoc_removeAssoc_other _ (fun h => hab h.symm)]
          | cons m p =>
            cases hc : lookupAssoc cs a with
            | none => simp [fsRemove, hc]
            | some c =>
              simp only [fsRemove, hc, fsLookup, Entry.childrenOf,
                lookupAssoc_setAssoc_other _ (fun h => hab h.symm)]

theorem fsLookup_append (fs : Entry) (p q : FsPath) :
    fsLookup fs (p ++ q) = (fsLookup fs p).bind (fun t => fsLookup t q) := by
  induction p generalizing fs with
  | nil => simp [fsLookup]
  | cons n p ih =>
    simp only [List.cons_append, fsLookup]
    cases lookupAssoc fs.childrenOf n with
    | none => simp
    | some c => simpa using ih c

theorem namesHas_filesOf (cs : List (String × Entry)) (nm : String) :
    namesHas (filesOf cs) nm = cs.any fun x => x.1 == nm && isFileE x.2 := by
  induction cs with
  | nil => simp [filesOf, namesHas]
  | cons x rest ih =>
    obtain ⟨n, e⟩ := x
    cases e with
    | file c => simp [filesOf, namesHas, isFileE, List.any_cons, ih]
    | dir d => simp [filesOf, namesHas, isFileE, List.any_cons, ih]

theorem walkCheck_eq (cs : List (String × Entry)) :
    walkCheck cs = hasBothMarkerFiles (Entry.dir cs) := by
  simp [walkCheck, hasBothMarkerFiles, Entry.childrenOf, namesHas_filesOf]

theorem find?_map_eq {α β : Type} (f : α → β) (l : List α) (p : β → Bool) :
    (l.map f).find? p = (l.find? (fun a => p (f a))).map f := by
  induction l with
  | nil => rfl
  | cons a l ih =>
    by_cases h : p (f a) = true
    · simp [List.find?, h]
    · rw [Bool.not_eq_true] at h
      simp [List.find?, h, ih]

theorem find?_append_eq {α : Type} (l₁ l₂ : List α) (p : α → Bool) :
    (l₁ ++ l₂).find? p =
      (match l₁.find? p with
       | some a => some a
       | none => l₂.find? p) := by
  induction l₁ with
  | nil => simp
  | cons a l ih =>
    by_cases h : p a = true
    · simp [List.find?, h]
    · rw [Bool.not_eq_true] at h
      simp [List.find?, h, ih]

mutual
/-- The walk returns exactly the first directory, in traversal order, whose
direct file children contain both markers. -/
theorem walkFind_eq (e : Entry) :
    walkFind e
      = ((preorder e).find? (fun x => hasBothMarkerFiles x.2)).map (fun x => x.1) := by
  match e with
  | .file c => simp [walkFind, preorder]
  | .dir cs =>
    by_cases h : walkCheck cs = true
    · have h2 : hasBothMarkerFiles (Entry.dir cs) = true := (walkCheck_eq cs) ▸ h
      simp [walkFind, h, preorder, List.find?, h2]
    · have h2 : hasBothMarkerFiles (Entry.dir cs) = false := by
        rw [← walkCheck_eq]; exact Bool.not_eq_true _ ▸ h
      rw [Bool.not_eq_true] at h
      simp only [walkFind, h, if_false, preorder, List.find?, h2]
      exact walkList_eq cs

/-- List version of walkFind_eq. -/
theorem walkList_eq (cs : List (String × Entry)) :
    walkList cs
      = ((preorderL cs).find? (fun x => hasBothMarkerFiles x.2)).map (fun x => x.1) := by
  match cs with
  | [] => simp [walkList, preorderL]
  | (n, e) :: rest =>
    have hrec := walkFind_eq e
    have hrest := walkList_eq rest
    cases e with
    | file c =>
      simpa [walkList, preorderL, preorder] using hrest
    | dir ds =>
      simp only [preorderL, find?_append_eq, find?_map_eq]
      cases hf : (preorder (Entry.dir ds)).find? (fun x => hasBothMarkerFiles x.2) with
      | none =>
        rw [hf] at hrec
        simp only [Option.map_none'] at hrec
        simp [walkList, hrec, hrest, hf]
      | some x =>
        rw [hf] at hrec
        simp only [Option.map_some'] at hrec
        simp [walkList, hrec, hf]
end

theorem listStartsWith_append (l m : List Char) :
    listStartsWith (l ++ m) l = true := by
  induction l with
  | nil => cases m <;> simp [listStartsWith]
  | cons a l ih => simp [listStartsWith, ih]

theorem pyEndsWith_append (s t : String) : pyEndsWith (s ++ t) t = true := by
  have hdata : (s ++ t).data = s.data ++ t.data := by
    cases s; cases t; rfl
  simp [pyEndsWith, hdata, List.reverse_append, listStartsWith_append]

theorem data_append (s t : String) : (s ++ t).data = s.data ++ t.data := by
  cases s; cases t; rfl

theorem dl_head (r : String) :
    (("Downloading " ++ r ++ "...").data).head? = some 'D' := by
  rw [data_append, data_append]
  rfl

theorem dl_ne_ext (r : String) :
    (("Downloading " ++ r ++ "...") = "Extracting...") ↔ False := by
  simp only [iff_false]
  intro he
  have hh := dl_head r
  rw [he] at hh
  exact absurd hh (by decide)

theorem dl_ne_ana (r : String) :
    (("Downloading " ++ r ++ "...") = "Analyzing plugin structure...") ↔ False := by
  simp only [iff_false]
  intro he
  have hh := dl_head r
  rw [he] at hh
  exact absurd hh (by decide)

theorem dl_ne_ins (r : String) :
    (("Downloading " ++ r ++ "...") = "Installing...") ↔ False := by
  simp only [iff_false]
  intro he
  have hh := dl_head r
  rw [he] at hh
  exact absurd hh (by decide)

theorem dlRank (r : String) : evRank (Ev.prog ("Downloading " ++ r ++ "...")) = 1 := by
  simp [evRank, dl_ne_ext, dl_ne_ana, dl_ne_ins]

theorem strictIncr_chain (l : List Nat) :
    strictIncr l = true ↔ List.Chain' (· < ·) l := by
  induction l with
  | nil => simp [strictIncr]
  | cons a l ih =>
    cases l with
    | nil => simp [strictIncr]
    | cons b l =>
      rw [List.chain'_cons, ← ih]
      simp [strictIncr]

theorem patchLoop_state (env : Env) (pdir : FsPath) (pats : List PatchFile) :
    ∀ s : St,
      (∀ s', patchLoop env pdir pats s = .ok s' →
        s'.evs = s.evs ∧ s'.temp = s.temp) ∧
      (∀ e s', patchLoop env pdir pats s = .error (e, s') →
        s'.evs = s.evs ∧ s'.temp = s.temp) := by
  induction pats with
  | nil =>
    intro s
    constructor
    · intro s' h
      simp only [patchLoop] at h
      cases h
      exact ⟨rfl, rfl⟩
    · intro e s' h
      simp only [patchLoop] at h
      cases h
  | cons p rest ih =>
    intro s
    constructor
    · intro s' h
      simp only [patchLoop] at h
      split at h
      · cases h
      · have h2 := (ih _).1 s' h
        exact h2
    · intro e s' h
      simp only [patchLoop] at h
      split at h
      · cases h
        exact ⟨rfl, rfl⟩
      · have h2 := (ih _).2 e s' h
        exact h2

theorem fsExists_fsSet_deeper {fs : Entry} {p : FsPath} (l : FsPath) (v : Entry)
    (h : fsExists fs p = true) : fsExists (fsSet fs (p ++ l) v) p = true := by
  rw [fsExists, Option.isSome_iff_exists] at h
  obtain ⟨t, ht⟩ := h
  rw [fsExists, fsLookup_fsSet_deeper p fs t l v ht]
  rfl

theorem foldSet_exists {p : FsPath} (entries : List (String × Entry)) {fs : Entry}
    (h : fsExists fs p = true) :
    fsExists (entries.foldl (fun fs x => fsSet fs (p ++ [x.1]) x.2) fs) p = true := by
  induction entries generalizing fs with
  | nil => exact h
  | cons x rest ih =>
    exact ih (fsExists_fsSet_deeper [x.1] x.2 h)

theorem foldSet_lookup {p : FsPath} (entries : List (String × Entry)) {fs t : Entry}
    (h : fsLookup fs p = some t) :
    fsLookup (entries.foldl (fun fs x => fsSet fs (p ++ [x.1]) x.2) fs) p
      = some (entries.foldl (fun t x => fsSet t [x.1] x.2) t) := by
  induction entries generalizing fs t with
  | nil => exact h
  | cons x rest ih =>
    exact ih (fsLookup_fsSet_deeper p fs t [x.1] x.2 h)

theorem diverges_append_left {p q : FsPath} (h : diverges p q = true) (l : FsPath) :
    diverges (p ++ l) q = true := by
  have h2 := diverges_extend h l []
  rwa [List.append_nil] at h2

theorem foldSet_lookup_diverge {p q : FsPath} (hd : diverges p q = true)
    (entries : List (String × Entry)) (fs : Entry) :
    fsLookup (entries.foldl (fun fs x => fsSet fs (p ++ [x.1]) x.2) fs) q
      = fsLookup fs q := by
  induction entries generalizing fs with
  | nil => rfl
  | cons x rest ih =>
    simp only [List.foldl_cons]
    rw [ih, fsLookup_fsSet_diverge (diverges_append_left hd [x.1])]

theorem patchLoop_lookup_diverge (env : Env) {pdir q : FsPath}
    (hd : diverges pdir q = true) (pats : List PatchFile) :
    ∀ s : St,
      (∀ s', patchLoop env pdir pats s = .ok s' →
        fsLookup s'.fs q = fsLookup s.fs q) ∧
      (∀ e s', patchLoop env pdir pats s = .error (e, s') →
        fsLookup s'.fs q = fsLookup s.fs q) := by
  induction pats with
  | nil =>
    intro s
    refine ⟨fun s' h => ?_, fun e s' h => ?_⟩
    · simp only [patchLoop] at h; cases h; rfl
    · simp only [patchLoop] at h; cases h
  | cons p rest ih =>
    intro s
    refine ⟨fun s' h => ?_, fun e s' h => ?_⟩ <;> simp only [patchLoop] at h
    · split at h
      · cases h
      · rw [(ih _).1 s' h]
        exact fsLookup_fsSet_diverge (diverges_append_left hd [p.name]) _ _
    · split at h
      · cases h; rfl
      · rw [(ih _).2 e s' h]
        exact fsLookup_fsSet_diverge (diverges_append_left hd [p.name]) _ _

theorem ranksOk_of (l : List Nat) {t : List Ev} {hi : Nat} (h1 : t.map evRank = l)
    (h2 : strictIncr l = true) (h3 : ∀ n ∈ l, n ≤ hi) : ranksOk t hi := by
  rw [ranksOk, h1]
  exact ⟨h2, h3⟩

theorem patchInstall_evs (env : Env) (pdir : FsPath) (pats : List PatchFile) (s : St) :
    (∀ s', patchInstall env pdir pats s = .ok s' →
      s'.evs = s.evs ++ [Ev.fin true (toString pats.length ++ " patch(es) installed!")]
        ∧ s'.temp = s.temp) ∧
    (∀ e s', patchInstall env pdir pats s = .error (e, s') →
      s'.evs = s.evs ∧ s'.temp = s.temp) := by
  constructor
  · intro s' h
    simp only [patchInstall] at h
    split at h
    · cases h
    · cases h
      rename_i sl heq
      have h2 := (patchLoop_state env pdir pats s).1 sl heq
      simp [emitF, h2.1, h2.2]
  · intro e s' h
    simp only [patchInstall] at h
    split at h
    · rename_i es heq
      cases h
      exact (patchLoop_state env pdir pats s).2 e s' heq
    · cases h

theorem patchInstall_deltaOk (env : Env) (pdir : FsPath) (pats : List PatchFile)
    (s sx s' : St)
    (hevs : sx.evs = s.evs ++ [Ev.prog ("Downloading patches...")])
    (h : patchInstall env pdir pats sx = .ok s') :
    deltaEvs s s' 5 1 := by
  obtain ⟨h1, _⟩ := (patchInstall_evs env pdir pats _).1 s' h
  refine ⟨[Ev.prog ("Downloading patches..."),
    Ev.fin true (toString pats.length ++ " patch(es) installed!")], ?_,
    ranksOk_of [1, 5] (by simp [evRank]) (by decide) (by decide), by simp [isFin]⟩
  rw [h1, hevs]
  simp

theorem patchInstall_deltaErr (env : Env) (pdir : FsPath) (pats : List PatchFile)
    (s sx : St) (e : String) (s' : St)
    (hevs : sx.evs = s.evs ++ [Ev.prog ("Downloading patches...")])
    (h : patchInstall env pdir pats sx = .error (e, s')) :
    deltaEvs s s' 4 0 := by
  obtain ⟨h1, _⟩ := (patchInstall_evs env pdir pats _).2 e s' h
  refine ⟨[Ev.prog ("Downloading patches...")], ?_,
    ranksOk_of [1] (by simp [evRank]) (by decide) (by decide), by simp [isFin]⟩
  rw [h1, hevs]

theorem patchRun_evSpec (env : Env) (s : St) : evSpec (patchRun env s) s 1 := by
  constructor
  · intro s' h
    simp only [patchRun] at h
    split at h
    · cases h
    · split at h
      · cases h
        exact ⟨[Ev.fin false ("No patches found")], by simp [emitF],
          ranksOk_of [5] (by simp [evRank]) (by decide) (by decide), by simp [isFin]⟩
      · split at h
        · split at h
          · cases h
          · exact patchInstall_deltaOk env _ _ s _ s' (by simp [emitP]) h
          · exact patchInstall_deltaOk env _ _ s _ s' (by simp [emitP]) h
        · cases h
  · intro e s' h
    simp only [patchRun] at h
    split at h
    · cases h
      exact ⟨[], by simp, ranksOk_of [] (by simp) (by decide) (by decide), by simp⟩
    · split at h
      · cases h
      · split at h
        · split at h
          · cases h
            exact ⟨[Ev.prog ("Downloading patches...")], by simp [emitP],
              ranksOk_of [1] (by simp [evRank]) (by decide) (by decide), by simp [isFin]⟩
          · exact patchInstall_deltaErr env _ _ s _ e s' (by simp [emitP]) h
          · exact patchInstall_deltaErr env _ _ s _ e s' (by simp [emitP]) h
        · cases h
          exact ⟨[Ev.prog ("Downloading patches...")], by simp [emitP],
            ranksOk_of [1] (by simp [evRank]) (by decide) (by decide), by simp [isFin]⟩

theorem pluginRun_evSpec (env : Env) (repo : String) (s : St) :
    evSpec (pluginRun env repo s) s 1 := by
  constructor
  · intro s' h
    simp only [pluginRun] at h
    split at h
    · cases h
    · split at h
      · cases h
        exact ⟨[Ev.prog ("Downloading " ++ repo ++ "..."),
          Ev.fin false ("Failed to download repository")],
          by simp [emitP, emitF],
          ranksOk_of [1, 5]
            (by simp [evRank, dl_ne_ext, dl_ne_ana, dl_ne_ins])
            (by decide) (by decide),
          by simp [isFin]⟩
      · split at h
        · cases h
        · split at h
          · cases h
          · split at h
            · cases h
            · split at h
              · cases h
                exact ⟨[Ev.prog ("Downloading " ++ repo ++ "..."), Ev.prog ("Extracting..."),
                  Ev.prog ("Analyzing plugin structure..."),
                  Ev.fin false ("No valid plugin structure found (main.lua/_meta.lua missing)")],
                  by simp [emitP, emitF],
                  ranksOk_of [1, 2, 3, 5]
                    (by simp [evRank, dl_ne_ext, dl_ne_ana, dl_ne_ins])
                    (by decide) (by decide),
                  by simp [isFin]⟩
              · split at h
                · cases h
                · rename_i sx heq
                  split at h
                  · cases h
                  · cases h
                    split at heq
                    · split at heq
                      · cases heq
                      · cases heq
                        exact ⟨[Ev.prog ("Downloading " ++ repo ++ "..."),
                          Ev.prog ("Extracting..."), Ev.prog ("Analyzing plugin structure..."),
                          Ev.prog ("Installing..."),
                          Ev.fin true (if env.is_update then repo ++ " updated successfully!"
                            else repo ++ " installed successfully!")],
                          by simp [emitP, emitF],
                          ranksOk_of [1, 2, 3, 4, 5]
                            (by simp [evRank, dl_ne_ext, dl_ne_ana, dl_ne_ins])
                            (by decide) (by decide),
                          by simp [isFin]⟩
                    · cases heq
                      exact ⟨[Ev.prog ("Downloading " ++ repo ++ "..."),
                        Ev.prog ("Extracting..."), Ev.prog ("Analyzing plugin structure..."),
                        Ev.prog ("Installing..."),
                        Ev.fin true (if env.is_update then repo ++ " updated successfully!"
                          else repo ++ " installed successfully!")],
                        by simp [emitP, emitF],
                        ranksOk_of [1, 2, 3, 4, 5]
                          (by simp [evRank, dl_ne_ext, dl_ne_ana, dl_ne_ins])
                          (by decide) (by decide),
                        by simp [isFin]⟩
  · intro e s' h
    simp only [pluginRun] at h
    split at h
    · cases h
      exact ⟨[Ev.prog ("Downloading " ++ repo ++ "...")],
        by simp [emitP],
        ranksOk_of [1]
          (by simp [evRank, dl_ne_ext, dl_ne_ana, dl_ne_ins])
          (by decide) (by decide),
        by simp [isFin]⟩
    · split at h
      · cases h
      · split at h
        · cases h
          exact ⟨[Ev.prog ("Downloading " ++ repo ++ "...")],
            by simp [emitP],
            ranksOk_of [1]
              (by simp [evRank, dl_ne_ext, dl_ne_ana, dl_ne_ins])
              (by decide) (by decide),
            by simp [isFin]⟩
        · split at h
          · cases h
            exact ⟨[Ev.prog ("Downloading " ++ repo ++ "...")],
              by simp [emitP],
              ranksOk_of [1]
                (by simp [evRank, dl_ne_ext, dl_ne_ana, dl_ne_ins])
                (by decide) (by decide),
              by simp [isFin]⟩
          · split at h
            · cases h
              exact ⟨[Ev.prog ("Downloading " ++ repo ++ "..."), Ev.prog ("Extracting...")],
                by simp [emitP],
                ranksOk_of [1, 2]
                  (by simp [evRank, dl_ne_ext, dl_ne_ana, dl_ne_ins])
                  (by decide) (by decide),
                by simp [isFin]⟩
            · split at h
              · cases h
              · split at h
                · rename_i es heq
                  cases h
                  split at heq
                  · split at heq
                    · cases heq
                      exact ⟨[Ev.prog ("Downloading " ++ repo ++ "..."), Ev.prog ("Extracting..."),
                        Ev.prog ("Analyzing plugin structure..."), Ev.prog ("Installing...")],
                        by simp [emitP],
                        ranksOk_of [1, 2, 3, 4]
                          (by simp [evRank, dl_ne_ext, dl_ne_ana, dl_ne_ins])
                          (by decide) (by decide),
                        by simp [isFin]⟩
                    · cases heq
                  · cases heq
                · rename_i sx heq
                  split at h
                  · cases h
                    split at heq
                    · split at heq
                      · cases heq
                      · cases heq
                        exact ⟨[Ev.prog ("Downloading " ++ repo ++ "..."), Ev.prog ("Extracting..."),
                          Ev.prog ("Analyzing plugin structure..."), Ev.prog ("Installing...")],
                          by simp [emitP],
                          ranksOk_of [1, 2, 3, 4]
                            (by simp [evRank, dl_ne_ext, dl_ne_ana, dl_ne_ins])
                            (by decide) (by decide),
                          by simp [isFin]⟩
                    · cases heq
                      exact ⟨[Ev.prog ("Downloading " ++ repo ++ "..."), Ev.prog ("Extracting..."),
                        Ev.prog ("Analyzing plugin structure..."), Ev.prog ("Installing...")],
                        by simp [emitP],
                        ranksOk_of [1, 2, 3, 4]
                          (by simp [evRank, dl_ne_ext, dl_ne_ana, dl_ne_ins])
                          (by decide) (by decide),
                        by simp [isFin]⟩
                  · cases h

theorem runBody_evSpec (env : Env) (s : St) :
    evSpec (runBody env s) s
      (if env.item_type = "plugin" ∨ env.item_type = "patch" then 1 else 0) := by
  constructor
  · intro s' h
    simp only [runBody] at h
    split at h
    · cases h
    · split at h
      · cases h
      · split at h
        · rename_i htype
          rw [if_pos (Or.inl htype)]
          exact (pluginRun_evSpec env _ s).1 s' h
        · split at h
          · rename_i h1 htype
            rw [if_pos (Or.inr htype)]
            exact (patchRun_evSpec env s).1 s' h
          · rename_i h1 h2
            cases h
            rw [if_neg (by tauto)]
            exact ⟨[], by simp, ranksOk_of [] (by simp) (by decide) (by decide), by simp⟩
  · intro e s' h
    simp only [runBody] at h
    split at h
    · cases h
      exact ⟨[], by simp, ranksOk_of [] (by simp) (by decide) (by decide), by simp⟩
    · split at h
      · cases h
        exact ⟨[], by simp, ranksOk_of [] (by simp) (by decide) (by decide), by simp⟩
      · split at h
        · exact (pluginRun_evSpec env _ s).2 e s' h
        · split at h
          · exact (patchRun_evSpec env s).2 e s' h
          · cases h

theorem strictIncr_snoc {l : List Nat} {k : Nat} (h : strictIncr l = true)
    (hlt : ∀ n ∈ l, n < k) : strictIncr (l ++ [k]) = true := by
  induction l with
  | nil => simp [strictIncr]
  | cons a l ih =>
    cases l with
    | nil =>
      simp only [List.cons_append, List.nil_append, strictIncr, Bool.and_eq_true,
        decide_eq_true_eq]
      exact ⟨hlt a (by simp), trivial⟩
    | cons b l =>
      simp only [strictIncr, Bool.and_eq_true, decide_eq_true_eq] at h
      have ih2 := ih h.2 (fun n hn => hlt n (List.mem_cons_of_mem a hn))
      simp only [List.cons_append, strictIncr, Bool.and_eq_true, decide_eq_true_eq]
      constructor
      · exact h.1
      · simpa using ih2

theorem finallyStep_filter (env : Env) (s1 : St) :
    ((finallyStep env s1).evs.filter isFin) = s1.evs.filter isFin := by
  unfold finallyStep
  cases s1.temp with
  | none => rfl
  | some p =>
    by_cases hex : fsExists s1.fs p = true
    · simp [hex, List.filter_append, isFin]
      split <;> simp [List.filter_append, isFin]
    · simp [hex]

theorem finallyStep_strict (env : Env) (s1 : St)
    (h : strictIncr (s1.evs.map evRank) = true)
    (hle : ∀ n ∈ s1.evs.map evRank, n ≤ 5) :
    strictIncr ((finallyStep env s1).evs.map evRank) = true := by
  unfold finallyStep
  cases s1.temp with
  | none => exact h
  | some p =>
    by_cases hex : fsExists s1.fs p = true
    · have happ : strictIncr ((s1.evs ++ [Ev.cleanup]).map evRank) = true := by
        rw [List.map_append]
        exact strictIncr_snoc h (fun n hn => Nat.lt_of_le_of_lt (hle n hn) (by decide))
      simp only [hex, if_true]
      split <;> simpa using happ
    · simp only [hex]
      simp only [if_false, Bool.false_eq_true]
      exact h

theorem run_finCount (env : Env)
    (hk : env.item_type = "plugin" ∨ env.item_type = "patch") :
    (finEvs (run env)).length = 1 := by
  unfold run finEvs
  cases hb : runBody env (initSt env) with
  | ok s1 =>
    obtain ⟨t, ht, _, hcnt⟩ := (runBody_evSpec env (initSt env)).1 s1 hb
    rw [if_pos hk] at hcnt
    rw [finallyStep_filter, ht]
    simpa [initSt] using hcnt
  | error es =>
    obtain ⟨e, s1⟩ := es
    obtain ⟨t, ht, _, hcnt⟩ := (runBody_evSpec env (initSt env)).2 e s1 hb
    rw [finallyStep_filter]
    have hnil : List.filter isFin t = [] := List.length_eq_zero.mp hcnt
    simp [emitF, List.filter_append, ht, initSt, hnil, isFin]

theorem run_errMsg (env : Env) (e : String) (s1 : St)
    (hb : runBody env (initSt env) = .error (e, s1)) :
    finEvs (run env) = [Ev.fin false ("Error: " ++ e)] := by
  obtain ⟨t, ht, _, hcnt⟩ := (runBody_evSpec env (initSt env)).2 e s1 hb
  unfold run finEvs
  rw [hb]
  rw [finallyStep_filter]
  have hnil : List.filter isFin t = [] := List.length_eq_zero.mp hcnt
  simp [emitF, List.filter_append, ht, initSt, hnil, isFin]

theorem run_chain (env : Env) :
    strictIncr ((run env).evs.map evRank) = true := by
  unfold run
  cases hb : runBody env (initSt env) with
  | ok s1 =>
    obtain ⟨t, ht, ⟨hchain, hle⟩, _⟩ := (runBody_evSpec env (initSt env)).1 s1 hb
    have hevs : s1.evs = t := by simpa [initSt] using ht
    exact finallyStep_strict env s1 (by rw [hevs]; exact hchain)
      (by rw [hevs]; exact hle)
  | error es =>
    obtain ⟨e, s1⟩ := es
    obtain ⟨t, ht, ⟨hchain, hle⟩, _⟩ := (runBody_evSpec env (initSt env)).2 e s1 hb
    have hevs : s1.evs = t := by simpa [initSt] using ht
    apply finallyStep_strict env
    · simp only [emitF, List.map_append, hevs]
      have h45 : (4 : Nat) < evRank (Ev.fin false ("Error: " ++ e)) := by
        simp [evRank]
      exact strictIncr_snoc hchain
        (fun n hn => Nat.lt_of_le_of_lt (hle n hn) h45)
    · intro n hn
      simp only [emitF, List.map_append, hevs] at hn
      rcases List.mem_append.1 hn with h2 | h2
      · exact Nat.le_of_lt (Nat.lt_of_le_of_lt (hle n h2) (by decide))
      · simp [evRank] at h2
        omega

theorem fsExists_fsSet_div {p q : FsPath} (hd : diverges p q = true)
    (fs v : Entry) : fsExists (fsSet fs p v) q = fsExists fs q := by
  rw [fsExists, fsLookup_fsSet_diverge hd, fsExists]

theorem fsExists_fsRemove_div {p q : FsPath} (hd : diverges p q = true)
    (fs : Entry) : fsExists (fsRemove fs p) q = fsExists fs q := by
  rw [fsExists, fsLookup_fsRemove_diverge hd, fsExists]

theorem diverges_append_only_right {p q : FsPath} (h : diverges p q = true)
    (l : FsPath) : diverges p (q ++ l) = true := by
  have h2 := diverges_extend h [] l
  rwa [List.append_nil] at h2

theorem diverges_ne_nil {p q : FsPath} (h : diverges p q = true) :
    p ≠ [] ∧ q ≠ [] := by
  constructor <;> intro he <;> subst he <;> simp [diverges, leadsInto] at h

theorem fsExists_fsSet_self (p : FsPath) (fs v : Entry) :
    fsExists (fsSet fs p v) p = true := by
  rw [fsExists, fsLookup_fsSet_self]
  rfl

theorem pluginRun_temp (env : Env) (repo : String) (s : St)
    (hdiv : diverges env.tempPath env.install_path = true)
    (hst : s.temp = none) :
    (∀ s', pluginRun env repo s = .ok s' → tempInv env s') ∧
    (∀ e s', pluginRun env repo s = .error (e, s') → tempInv env s') := by
  have hdivT : ∀ l, diverges env.tempPath (env.install_path ++ l) = true :=
    fun l => diverges_append_only_right hdiv l
  constructor
  · intro s' h
    simp only [pluginRun] at h
    split at h
    · cases h
    · split at h
      · cases h
        left
        simpa [emitP, emitF] using hst
      · split at h
        · cases h
        · split at h
          · cases h
          · split at h
            · cases h
            · split at h
              · cases h
                right
                refine ⟨rfl, ?_⟩
                simp only [emitP, emitF]
                exact foldSet_exists _
                  (fsExists_fsSet_deeper _ _ (fsExists_fsSet_self _ _ _))
              · split at h
                · cases h
                · rename_i sx heq
                  split at h
                  · cases h
                  · cases h
                    split at heq
                    · split at heq
                      · cases heq
                      · cases heq
                        right
                        refine ⟨rfl, ?_⟩
                        simp only [emitP, emitF]
                        rw [fsExists_fsSet_div (diverges_comm _ _ ▸ hdivT _),
                          fsExists_fsRemove_div (diverges_comm _ _ ▸ hdivT _)]
                        exact foldSet_exists _
                          (fsExists_fsSet_deeper _ _ (fsExists_fsSet_self _ _ _))
                    · cases heq
                      right
                      refine ⟨rfl, ?_⟩
                      simp only [emitP, emitF]
                      rw [fsExists_fsSet_div (diverges_comm _ _ ▸ hdivT _)]
                      exact foldSet_exists _
                        (fsExists_fsSet_deeper _ _ (fsExists_fsSet_self _ _ _))
  · intro e s' h
    simp only [pluginRun] at h
    split at h
    · cases h
      left
      simpa [emitP] using hst
    · split at h
      · cases h
      · split at h
        · cases h
          left
          simpa [emitP] using hst
        · split at h
          · cases h
            right
            refine ⟨rfl, ?_⟩
            simp only [emitP]
            exact fsExists_fsSet_self _ _ _
          · split at h
            · cases h
              right
              refine ⟨rfl, ?_⟩
              simp only [emitP]
              exact fsExists_fsSet_deeper _ _ (fsExists_fsSet_self _ _ _)
            · split at h
              · cases h
              · split at h
                · rename_i es heq
                  cases h
                  split at heq
                  · split at heq
                    · cases heq
                      right
                      refine ⟨rfl, ?_⟩
                      simp only [emitP]
                      exact foldSet_exists _
                        (fsExists_fsSet_deeper _ _ (fsExists_fsSet_self _ _ _))
                    · cases heq
                  · cases heq
                · rename_i sx heq
                  split at h
                  · cases h
                    split at heq
                    · split at heq
                      · cases heq
                      · cases heq
                        right
                        refine ⟨rfl, ?_⟩
                        simp only [emitP]
                        rw [fsExists_fsRemove_div (diverges_comm _ _ ▸ hdivT _)]
                        exact foldSet_exists _
                          (fsExists_fsSet_deeper _ _ (fsExists_fsSet_self _ _ _))
                    · cases heq
                      right
                      refine ⟨rfl, ?_⟩
                      simp only [emitP]
                      exact foldSet_exists _
                        (fsExists_fsSet_deeper _ _ (fsExists_fsSet_self _ _ _))
                  · cases h

theorem patchRun_temp (env : Env) (s : St) (hst : s.temp = none) :
    (∀ s', patchRun env s = .ok s' → tempInv env s') ∧
    (∀ e s', patchRun env s = .error (e, s') → tempInv env s') := by
  constructor
  · intro s' h
    simp only [patchRun] at h
    split at h
    · cases h
    · split at h
      · cases h
        left
        simpa [emitF] using hst
      · split at h
        · split at h
          · cases h
          · obtain ⟨_, ht⟩ := (patchInstall_evs env _ _ _).1 s' h
            left
            rw [ht]
            simpa [emitP] using hst
          · obtain ⟨_, ht⟩ := (patchInstall_evs env _ _ _).1 s' h
            left
            rw [ht]
            simpa [emitP] using hst
        · cases h
  · intro e s' h
    simp only [patchRun] at h
    split at h
    · cases h
      left
      exact hst
    · split at h
      · cases h
      · split at h
        · split at h
          · cases h
            left
            simpa [emitP] using hst
          · obtain ⟨_, ht⟩ := (patchInstall_evs env _ _ _).2 e s' h
            left
            rw [ht]
            simpa [emitP] using hst
          · obtain ⟨_, ht⟩ := (patchInstall_evs env _ _ _).2 e s' h
            left
            rw [ht]
            simpa [emitP] using hst
        · cases h
          left
          simpa [emitP] using hst

theorem runBody_temp (env : Env)
    (hdiv : diverges env.tempPath env.install_path = true) :
    (∀ s', runBody env (initSt env) = .ok s' → tempInv env s') ∧
    (∀ e s', runBody env (initSt env) = .error (e, s') → tempInv env s') := by
  constructor
  · intro s' h
    simp only [runBody] at h
    split at h
    · cases h
    · split at h
      · cases h
      · split at h
        · exact (pluginRun_temp env _ _ hdiv rfl).1 s' h
        · split at h
          · exact (patchRun_temp env _ rfl).1 s' h
          · cases h
            left
            rfl
  · intro e s' h
    simp only [runBody] at h
    split at h
    · cases h
      left
      rfl
    · split at h
      · cases h
        left
        rfl
      · split at h
        · exact (pluginRun_temp env _ _ hdiv rfl).2 e s' h
        · split at h
          · exact (patchRun_temp env _ rfl).2 e s' h
          · cases h

theorem run_tempInv (env : Env)
    (hdiv : diverges env.tempPath env.install_path = true) :
    ∃ s1 : St, run env = finallyStep env s1 ∧ tempInv env s1 := by
  cases hb : runBody env (initSt env) with
  | ok s1 =>
    refine ⟨s1, ?_, (runBody_temp env hdiv).1 s1 hb⟩
    unfold run
    rw [hb]
  | error es =>
    obtain ⟨e, s1⟩ := es
    have h1 := (runBody_temp env hdiv).2 e s1 hb
    refine ⟨emitF s1 false ("Error: " ++ e), ?_, ?_⟩
    · unfold run
      rw [hb]
    · rcases h1 with h1 | ⟨h1, h2⟩
      · left
        simpa [emitF] using h1
      · right
        exact ⟨by simpa [emitF] using h1, by simpa [emitF] using h2⟩

theorem run_cleanup (env : Env)
    (hdiv : diverges env.tempPath env.install_path = true)
    (hsome : (run env).temp.isSome = true) :
    Ev.cleanup ∈ (run env).evs ∧
      (env.rmtreeTempOk = true → fsExists (run env).fs env.tempPath = false) := by
  obtain ⟨s1, hrun, hinv⟩ := run_tempInv env hdiv
  rcases hinv with hinv | ⟨htemp, hex⟩
  · rw [hrun]
    unfold finallyStep
    rw [hinv]
    constructor
    · exfalso
      rw [hrun] at hsome
      unfold finallyStep at hsome
      rw [hinv] at hsome
      simp [hinv] at hsome
    · intro hrm
      exfalso
      rw [hrun] at hsome
      unfold finallyStep at hsome
      rw [hinv] at hsome
      simp [hinv] at hsome
  · rw [hrun]
    unfold finallyStep
    rw [htemp]
    simp only [hex, if_true]
    cases hrm : env.rmtreeTempOk with
    | true =>
      simp only [if_true]
      constructor
      · simp
      · intro _
        rw [fsExists, fsLookup_fsRemove_self (diverges_ne_nil hdiv).1]
        rfl
    | false =>
      simp only [Bool.false_eq_true, if_false]
      constructor
      · simp
      · intro hrm2
        cases hrm2

theorem run_of_body_ok_none (env : Env) (s1 : St)
    (hb : runBody env (initSt env) = .ok s1) (ht : s1.temp = none) :
    run env = s1 := by
  unfold run
  rw [hb]
  unfold finallyStep
  rw [ht]

theorem body_fetch_empty (env : Env) (ow repo : String) (zc : Option String)
    (hty : env.item_type = "plugin") (how : env.ownerLogin = .ok ow)
    (hre : env.repoName = .ok repo) (hfe : env.zipFetch = .ok zc)
    (hfal : pyFalsy zc = true) :
    runBody env (initSt env) = .ok
      { fs := env.fs0,
        evs := [Ev.prog ("Downloading " ++ repo ++ "..."),
                Ev.fin false ("Failed to download repository")],
        temp := none } := by
  simp [runBody, how, hre, hty, pluginRun, hfe, hfal, initSt, emitP, emitF]

theorem body_patch_empty (env : Env) (ow repo : String) (pl : Option (List PatchFile))
    (hty : env.item_type = "patch") (how : env.ownerLogin = .ok ow)
    (hre : env.repoName = .ok repo) (hpl : env.patchList = .ok pl)
    (hfal : pyFalsyList pl = true) :
    runBody env (initSt env) = .ok
      { fs := env.fs0,
        evs := [Ev.fin false ("No patches found")],
        temp := none } := by
  simp [runBody, how, hre, hty, patchRun, hpl, hfal, initSt, emitF]

theorem leadsInto_cons_same (x : String) (p q : FsPath) :
    leadsInto (x :: p) (x :: q) = leadsInto p q := by
  simp [leadsInto]

theorem diverges_cons_same (x : String) (p q : FsPath) :
    diverges (x :: p) (x :: q) = diverges p q := by
  simp [diverges, leadsInto_cons_same]

theorem diverges_last {a b : String} (hab : a ≠ b) (d : FsPath) :
    diverges (d ++ [a]) (d ++ [b]) = true := by
  induction d with
  | nil => simp [diverges, leadsInto, hab, Ne.symm hab]
  | cons x d ih => simpa [diverges_cons_same] using ih

theorem patchLoop_exists (env : Env) (pdir : FsPath) (m : String) :
    ∀ (pats : List PatchFile) (s s' : St), patchLoop env pdir pats s = .ok s' →
      fsExists s.fs (pdir ++ [m]) = true → fsExists s'.fs (pdir ++ [m]) = true := by
  intro pats
  induction pats with
  | nil =>
    intro s s' h hex
    simp only [patchLoop] at h
    cases h
    exact hex
  | cons p rest ih =>
    intro s s' h hex
    simp only [patchLoop] at h
    split at h
    · cases h
    · apply ih _ s' h
      by_cases hnm : p.name = m
      · subst hnm
        exact fsExists_fsSet_self _ _ _
      · rw [fsExists_fsSet_div (diverges_last hnm pdir)]
        exact hex

theorem patchLoop_ok_of (env : Env) (pdir : FsPath) :
    ∀ (pats : List PatchFile) (s : St),
      (∀ p ∈ pats, exOk (env.patchGet p.download_url) = true) →
      ∃ s', patchLoop env pdir pats s = .ok s' ∧
        (∀ p ∈ pats, fsExists s'.fs (pdir ++ [p.name]) = true) := by
  intro pats
  induction pats with
  | nil =>
    intro s _
    exact ⟨s, rfl, by simp⟩
  | cons p rest ih =>
    intro s hget
    have hp := hget p (by simp)
    cases hg : env.patchGet p.download_url with
    | error e => rw [hg] at hp; cases hp
    | ok txt =>
      obtain ⟨s', hs', hex⟩ := ih { s with fs := fsSet s.fs (pdir ++ [p.name]) (Entry.file txt) }
        (fun q hq => hget q (List.mem_cons_of_mem p hq))
      refine ⟨s', ?_, ?_⟩
      · simp only [patchLoop, hg]
        exact hs'
      · intro q hq
        rcases List.mem_cons.1 hq with hq | hq
        · subst hq
          exact patchLoop_exists env pdir q.name rest _ s' hs'
            (fsExists_fsSet_self _ _ _)
        · exact hex q hq

theorem body_patch_ok (env : Env) (ow repo : String) (pats : List PatchFile)
    (hty : env.item_type = "patch") (how : env.ownerLogin = .ok ow)
    (hre : env.repoName = .ok repo)
    (hpl : env.patchList = .ok (some pats)) (hne : pats.isEmpty = false)
    (hdir : isDirAt env.fs0 env.install_path = true)
    (hnf : noFileAt env.fs0 (env.install_path ++ ["patches"]) = true)
    (hget : ∀ p ∈ pats, exOk (env.patchGet p.download_url) = true) :
    ∃ s1, runBody env (initSt env) = .ok s1 ∧ s1.temp = none ∧
      s1.evs = [Ev.prog ("Downloading patches..."),
        Ev.fin true (toString pats.length ++ " patch(es) installed!")] ∧
      ∀ p ∈ pats, fsExists s1.fs (env.install_path ++ ["patches", p.name]) = true := by
  have hbody : runBody env (initSt env) = patchRun env (initSt env) := by
    simp [runBody, how, hre, hty]
  rw [hbody]
  have hfal : pyFalsyList (some pats) = false := by simpa [pyFalsyList] using hne
  simp only [patchRun, hpl, hfal, Bool.false_eq_true, if_false, Option.getD_some,
    patchInstall]
  unfold isDirAt at hdir
  unfold noFileAt at hnf
  split at hdir
  case _ =>
    rename_i cs hlook
    rw [show fsLookup (emitP (initSt env) "Downloading patches...").fs env.install_path
        = some (Entry.dir cs) from hlook]
    cases hpe : fsLookup env.fs0 (env.install_path ++ ["patches"]) with
    | none =>
      rw [show fsLookup (emitP (initSt env) "Downloading patches...").fs
          (env.install_path ++ ["patches"]) = none from hpe]
      obtain ⟨s', hs', hex⟩ := patchLoop_ok_of env (env.install_path ++ ["patches"]) pats
        { fs := fsSet (emitP (initSt env) "Downloading patches...").fs
            (env.install_path ++ ["patches"]) (Entry.dir []),
          evs := (emitP (initSt env) "Downloading patches...").evs,
          temp := (emitP (initSt env) "Downloading patches...").temp } hget
      obtain ⟨hevs, htemp⟩ := (patchLoop_state env _ _ _).1 s' hs'
      refine ⟨emitF s' true (toString pats.length ++ " patch(es) installed!"),
        ?_, ?_, ?_, ?_⟩
      · rw [hs']
      · exact htemp
      · simp [emitF, hevs, emitP, initSt]
      · intro p hp
        have h2 := hex p hp
        simpa [emitF, List.append_assoc] using h2
    | some pe =>
      cases pe with
      | file c =>
        rw [hpe] at hnf
        cases hnf
      | dir ds =>
        rw [show fsLookup (emitP (initSt env) "Downloading patches...").fs
            (env.install_path ++ ["patches"]) = some (Entry.dir ds) from hpe]
        obtain ⟨s', hs', hex⟩ := patchLoop_ok_of env (env.install_path ++ ["patches"]) pats
          (emitP (initSt env) "Downloading patches...") hget
        obtain ⟨hevs, htemp⟩ := (patchLoop_state env _ _ _).1 s' hs'
        refine ⟨emitF s' true (toString pats.length ++ " patch(es) installed!"),
          ?_, ?_, ?_, ?_⟩
        · rw [hs']
        · exact htemp
        · simp [emitF, hevs, emitP, initSt]
        · intro p hp
          have h2 := hex p hp
          simpa [emitF, List.append_assoc] using h2
  case _ =>
    cases hdir

theorem body_plugin_ok (env : Env) (ow repo zc : String)
    (entries : List (String × Entry)) (rel : FsPath) (subT : Entry)
    (hty : env.item_type = "plugin")
    (how : env.ownerLogin = .ok ow) (hre : env.repoName = .ok repo)
    (hfe : env.zipFetch = .ok (some zc)) (hzne : zc.isEmpty = false)
    (hmk : env.mkdtempOk = .ok ()) (hwz : env.writeZipOk = .ok ())
    (hun : env.unzip = .ok entries)
    (hloc : find_plugin_root (buildTemp repo zc entries) = some rel)
    (hsub : fsLookup (buildTemp repo zc entries) rel = some subT)
    (hrt : env.rmtreeTargetOk = .ok ()) (hcp : env.copyOk = .ok ())
    (hdiv : diverges env.tempPath env.install_path = true) :
    ∃ s1, runBody env (initSt env) = .ok s1 ∧
      s1.temp = some env.tempPath ∧
      finEvs s1 = [Ev.fin true (if env.is_update then repo ++ " updated successfully!"
        else repo ++ " installed successfully!")] ∧
      fsLookup s1.fs (env.install_path ++
        ["plugins", deriveName (pathName (env.tempPath ++ rel))]) = some subT ∧
      fsExists s1.fs env.tempPath = true := by
  have hdiv2 : diverges env.install_path env.tempPath = true := by
    rw [diverges_comm]; exact hdiv
  have hbody : runBody env (initSt env) = pluginRun env repo (initSt env) := by
    simp [runBody, how, hre, hty]
  rw [hbody]
  have hfal : pyFalsy (some zc) = false := by simpa [pyFalsy] using hzne
  simp only [pluginRun, hfe, hfal, Bool.false_eq_true, if_false, hmk, hwz, hun,
    Option.getD_some, emitP, emitF, initSt]
  have hA : fsLookup (fsSet env.fs0 env.tempPath (Entry.dir [])) env.tempPath
      = some (Entry.dir []) := fsLookup_fsSet_self _ _ _
  have hB : fsLookup (fsSet (fsSet env.fs0 env.tempPath (Entry.dir []))
      (env.tempPath ++ [repo ++ ".zip"]) (Entry.file zc)) env.tempPath
      = some (Entry.dir [(repo ++ ".zip", Entry.file zc)]) :=
    fsLookup_fsSet_deeper _ _ _ _ _ hA
  have hC : fsLookup (List.foldl (fun fs x => fsSet fs (env.tempPath ++ [x.1]) x.2)
      (fsSet (fsSet env.fs0 env.tempPath (Entry.dir []))
        (env.tempPath ++ [repo ++ ".zip"]) (Entry.file zc)) entries) env.tempPath
      = some (buildTemp repo zc entries) := foldSet_lookup entries hB
  simp only [hC, hloc]
  have hsub4 : fsLookup (List.foldl (fun fs x => fsSet fs (env.tempPath ++ [x.1]) x.2)
      (fsSet (fsSet env.fs0 env.tempPath (Entry.dir []))
        (env.tempPath ++ [repo ++ ".zip"]) (Entry.file zc)) entries)
      (env.tempPath ++ rel) = some subT := by
    rw [fsLookup_append, hC]
    exact hsub
  have hdivTT : diverges (env.install_path ++
      ["plugins", deriveName (pathName (env.tempPath ++ rel))])
      (env.tempPath ++ rel) = true := diverges_extend hdiv2 _ _
  have hdivT : diverges (env.install_path ++
      ["plugins", deriveName (pathName (env.tempPath ++ rel))]) env.tempPath = true := by
    have h2 := diverges_extend hdiv2
      ["plugins", deriveName (pathName (env.tempPath ++ rel))] []
    rwa [List.append_nil] at h2
  by_cases hex : fsExists (List.foldl (fun fs x => fsSet fs (env.tempPath ++ [x.1]) x.2)
      (fsSet (fsSet env.fs0 env.tempPath (Entry.dir []))
        (env.tempPath ++ [repo ++ ".zip"]) (Entry.file zc)) entries)
      (env.install_path ++ ["plugins", deriveName (pathName (env.tempPath ++ rel))]) = true
  · have hsub5 : fsLookup (fsRemove (List.foldl
        (fun fs x => fsSet fs (env.tempPath ++ [x.1]) x.2)
        (fsSet (fsSet env.fs0 env.tempPath (Entry.dir []))
          (env.tempPath ++ [repo ++ ".zip"]) (Entry.file zc)) entries)
        (env.install_path ++ ["plugins", deriveName (pathName (env.tempPath ++ rel))]))
        (env.tempPath ++ rel) = some subT := by
      rw [fsLookup_fsRemove_diverge hdivTT]
      exact hsub4
    simp only [hex, if_true, hrt, hcp, hsub5]
    refine ⟨_, rfl, rfl, by simp [finEvs, isFin], ?_, ?_⟩
    · exact fsLookup_fsSet_self _ _ _
    · rw [fsExists_fsSet_div (diverges_comm _ _ ▸ hdivT),
        fsExists_fsRemove_div (diverges_comm _ _ ▸ hdivT)]
      exact foldSet_exists _ (fsExists_fsSet_deeper _ _ (fsExists_fsSet_self _ _ _))
  · rw [Bool.not_eq_true] at hex
    simp only [hex, Bool.false_eq_true, if_false, hcp, hsub4]
    refine ⟨_, rfl, rfl, by simp [finEvs, isFin], ?_, ?_⟩
    · exact fsLookup_fsSet_self _ _ _
    · rw [fsExists_fsSet_div (diverges_comm _ _ ▸ hdivT)]
      exact foldSet_exists _ (fsExists_fsSet_deeper _ _ (fsExists_fsSet_self _ _ _))

theorem finallyStep_lookup (env : Env) (s1 : St) (q : FsPath)
    (hq : ∀ p, s1.temp = some p → diverges p q = true) :
    fsLookup (finallyStep env s1).fs q = fsLookup s1.fs q := by
  unfold finallyStep
  cases ht : s1.temp with
  | none => rfl
  | some p =>
    by_cases hex : fsExists s1.fs p = true
    · simp only [hex, if_true]
      cases env.rmtreeTempOk with
      | true =>
        simp only [if_true]
        exact fsLookup_fsRemove_diverge (hq p ht) _
      | false => rfl
    · simp only [Bool.not_eq_true] at hex
      simp only [hex, Bool.false_eq_true, if_false]

theorem run_plugin_ok (env : Env) (ow repo zc : String)
    (entries : List (String × Entry)) (rel : FsPath) (subT : Entry)
    (hty : env.item_type = "plugin")
    (how : env.ownerLogin = .ok ow) (hre : env.repoName = .ok repo)
    (hfe : env.zipFetch = .ok (some zc)) (hzne : zc.isEmpty = false)
    (hmk : env.mkdtempOk = .ok ()) (hwz : env.writeZipOk = .ok ())
    (hun : env.unzip = .ok entries)
    (hloc : find_plugin_root (buildTemp repo zc entries) = some rel)
    (hsub : fsLookup (buildTemp repo zc entries) rel = some subT)
    (hrt : env.rmtreeTargetOk = .ok ()) (hcp : env.copyOk = .ok ())
    (hdiv : diverges env.tempPath env.install_path = true) :
    fsLookup (run env).fs (env.install_path ++
      ["plugins", deriveName (pathName (env.tempPath ++ rel))]) = some subT ∧
    finEvs (run env) = [Ev.fin true (if env.is_update then repo ++ " updated successfully!"
      else repo ++ " installed successfully!")] := by
  obtain ⟨s1, hb, htemp, hfin, hlookT, hexT⟩ := body_plugin_ok env ow repo zc entries rel
    subT hty how hre hfe hzne hmk hwz hun hloc hsub hrt hcp hdiv
  constructor
  · have hrw : run env = finallyStep env s1 := by
      unfold run
      rw [hb]
    rw [hrw]
    rw [finallyStep_lookup env s1 _ ?_]
    · exact hlookT
    · intro p hp
      rw [htemp] at hp
      cases hp
      exact diverges_append_only_right hdiv _
  · have hrw : run env = finallyStep env s1 := by
      unfold run
      rw [hb]
    rw [hrw]
    unfold finEvs
    rw [finallyStep_filter]
    exact hfin

theorem body_err_fetch (env : Env) (ow repo e : String)
    (hty : env.item_type = "plugin") (how : env.ownerLogin = .ok ow)
    (hre : env.repoName = .ok repo) (hfe : env.zipFetch = .error e) :
    runBody env (initSt env) = .error (e,
      { fs := env.fs0, evs := [Ev.prog ("Downloading " ++ repo ++ "...")],
        temp := none }) := by
  simp [runBody, how, hre, hty, pluginRun, hfe, initSt, emitP]

theorem body_err_mkdtemp (env : Env) (ow repo e : String) (zc : Option String)
    (hty : env.item_type = "plugin") (how : env.ownerLogin = .ok ow)
    (hre : env.repoName = .ok repo) (hfe : env.zipFetch = .ok zc)
    (hfal : pyFalsy zc = false) (hmk : env.mkdtempOk = .error e) :
    runBody env (initSt env) = .error (e,
      { fs := env.fs0, evs := [Ev.prog ("Downloading " ++ repo ++ "...")],
        temp := none }) := by
  simp [runBody, how, hre, hty, pluginRun, hfe, hfal, hmk, initSt, emitP]

theorem body_err_write (env : Env) (ow repo e : String) (zc : Option String)
    (hty : env.item_type = "plugin") (how : env.ownerLogin = .ok ow)
    (hre : env.repoName = .ok repo) (hfe : env.zipFetch = .ok zc)
    (hfal : pyFalsy zc = false) (hmk : env.mkdtempOk = .ok ())
    (hwz : env.writeZipOk = .error e) :
    runBody env (initSt env) = .error (e,
      { fs := fsSet env.fs0 env.tempPath (Entry.dir []),
        evs := [Ev.prog ("Downloading " ++ repo ++ "...")],
        temp := some env.tempPath }) := by
  simp [runBody, how, hre, hty, pluginRun, hfe, hfal, hmk, hwz, initSt, emitP]

theorem body_err_unzip (env : Env) (ow repo e : String) (zc : Option String)
    (hty : env.item_type = "plugin") (how : env.ownerLogin = .ok ow)
    (hre : env.repoName = .ok repo) (hfe : env.zipFetch = .ok zc)
    (hfal : pyFalsy zc = false) (hmk : env.mkdtempOk = .ok ())
    (hwz : env.writeZipOk = .ok ()) (hun : env.unzip = .error e) :
    runBody env (initSt env) = .error (e,
      { fs := fsSet (fsSet env.fs0 env.tempPath (Entry.dir []))
          (env.tempPath ++ [repo ++ ".zip"]) (Entry.file (zc.getD (""))),
        evs := [Ev.prog ("Downloading " ++ repo ++ "..."), Ev.prog ("Extracting...")],
        temp := some env.tempPath }) := by
  simp [runBody, how, hre, hty, pluginRun, hfe, hfal, hmk, hwz, hun, initSt, emitP]

theorem body_locate_none (env : Env) (ow repo : String) (zc : Option String)
    (entries : List (String × Entry))
    (hty : env.item_type = "plugin") (how : env.ownerLogin = .ok ow)
    (hre : env.repoName = .ok repo) (hfe : env.zipFetch = .ok zc)
    (hfal : pyFalsy zc = false) (hmk : env.mkdtempOk = .ok ())
    (hwz : env.writeZipOk = .ok ()) (hun : env.unzip = .ok entries)
    (hloc : find_plugin_root (buildTemp repo (zc.getD ("")) entries) = none) :
    runBody env (initSt env) = .ok
      { fs := List.foldl (fun fs x => fsSet fs (env.tempPath ++ [x.1]) x.2)
          (fsSet (fsSet env.fs0 env.tempPath (Entry.dir []))
            (env.tempPath ++ [repo ++ ".zip"]) (Entry.file (zc.getD ("")))) entries,
        evs := [Ev.prog ("Downloading " ++ repo ++ "..."), Ev.prog ("Extracting..."),
          Ev.prog ("Analyzing plugin structure..."),
          Ev.fin false ("No valid plugin structure found (main.lua/_meta.lua missing)")],
        temp := some env.tempPath } := by
  have hA : fsLookup (fsSet env.fs0 env.tempPath (Entry.dir [])) env.tempPath
      = some (Entry.dir []) := fsLookup_fsSet_self _ _ _
  have hB : fsLookup (fsSet (fsSet env.fs0 env.tempPath (Entry.dir []))
      (env.tempPath ++ [repo ++ ".zip"]) (Entry.file (zc.getD ("")))) env.tempPath
      = some (Entry.dir [(repo ++ ".zip", Entry.file (zc.getD ("")))]) :=
    fsLookup_fsSet_deeper _ _ _ _ _ hA
  have hC : fsLookup (List.foldl (fun fs x => fsSet fs (env.tempPath ++ [x.1]) x.2)
      (fsSet (fsSet env.fs0 env.tempPath (Entry.dir []))
        (env.tempPath ++ [repo ++ ".zip"]) (Entry.file (zc.getD ("")))) entries)
      env.tempPath = some (buildTemp repo (zc.getD ("")) entries) := foldSet_lookup entries hB
  have hbody : runBody env (initSt env) = pluginRun env repo (initSt env) := by
    simp [runBody, how, hre, hty]
  rw [hbody]
  simp only [pluginRun, hfe, hfal, Bool.false_eq_true, if_false, hmk, hwz, hun,
    emitP, emitF, initSt, hC, hloc]
  rfl

theorem run_frame_before_copy (env : Env) (ow repo : String)
    (hty : env.item_type = "plugin") (how : env.ownerLogin = .ok ow)
    (hre : env.repoName = .ok repo)
    (hdiv : diverges env.tempPath env.install_path = true)
    (hfb : failsBeforeCopy env repo = true) :
    fsLookup (run env).fs env.install_path = fsLookup env.fs0 env.install_path := by
  unfold failsBeforeCopy at hfb
  split at hfb
  · rename_i e hfe
    have hb := body_err_fetch env ow repo e hty how hre hfe
    have hrun : run env = finallyStep env (emitF
        { fs := env.fs0,
          evs := [Ev.prog ("Downloading " ++ repo ++ "...")], temp := none }
        false ("Error: " ++ e)) := by
      unfold run
      rw [hb]
    rw [hrun, finallyStep_lookup]
    · rfl
    · intro p hp
      simp [emitF] at hp
  · rename_i zc hfe
    split at hfb
    · rename_i hfal
      have hb := body_fetch_empty env ow repo zc hty how hre hfe hfal
      rw [run_of_body_ok_none env _ hb rfl]
    · rename_i hfal0
      have hfal : pyFalsy zc = false := by
        rw [← Bool.not_eq_true]
        exact hfal0
      split at hfb
      · rename_i e hmk
        have hb := body_err_mkdtemp env ow repo e zc hty how hre hfe hfal hmk
        have hrun : run env = finallyStep env (emitF
            { fs := env.fs0,
              evs := [Ev.prog ("Downloading " ++ repo ++ "...")], temp := none }
            false ("Error: " ++ e)) := by
          unfold run
          rw [hb]
        rw [hrun, finallyStep_lookup]
        · rfl
        · intro p hp
          simp [emitF] at hp
      · split at hfb
        · rename_i e hwz
          have hb := body_err_write env ow repo e zc hty how hre hfe hfal
            (by assumption) hwz
          have hrun : run env = finallyStep env (emitF
              { fs := fsSet env.fs0 env.tempPath (Entry.dir []),
                evs := [Ev.prog ("Downloading " ++ repo ++ "...")],
                temp := some env.tempPath } false ("Error: " ++ e)) := by
            unfold run
            rw [hb]
          rw [hrun, finallyStep_lookup]
          · exact fsLookup_fsSet_diverge hdiv _ _
          · intro p hp
            simp [emitF] at hp
            subst hp
            exact hdiv
        · split at hfb
          · rename_i e hun
            have hb := body_err_unzip env ow repo e zc hty how hre hfe hfal
              (by assumption) (by assumption) hun
            have hrun : run env = finallyStep env (emitF
                { fs := fsSet (fsSet env.fs0 env.tempPath (Entry.dir []))
                    (env.tempPath ++ [repo ++ ".zip"]) (Entry.file (zc.getD (""))),
                  evs := [Ev.prog ("Downloading " ++ repo ++ "..."), Ev.prog ("Extracting...")],
                  temp := some env.tempPath } false ("Error: " ++ e)) := by
              unfold run
              rw [hb]
            rw [hrun, finallyStep_lookup]
            · dsimp only [emitF]
              rw [fsLookup_fsSet_diverge (diverges_append_left hdiv _),
                fsLookup_fsSet_diverge hdiv]
            · intro p hp
              simp [emitF] at hp
              subst hp
              exact hdiv
          · rename_i entries hun
            have hloc : find_plugin_root (buildTemp repo (zc.getD ("")) entries) = none :=
              Option.isNone_iff_eq_none.mp hfb
            have hb := body_locate_none env ow repo zc entries hty how hre hfe hfal
              (by assumption) (by assumption) hun hloc
            have hrun : run env = finallyStep env
                { fs := List.foldl (fun fs x => fsSet fs (env.tempPath ++ [x.1]) x.2)
                    (fsSet (fsSet env.fs0 env.tempPath (Entry.dir []))
                      (env.tempPath ++ [repo ++ ".zip"]) (Entry.file (zc.getD ("")))) entries,
                  evs := [Ev.prog ("Downloading " ++ repo ++ "..."), Ev.prog ("Extracting..."),
                    Ev.prog ("Analyzing plugin structure..."),
                    Ev.fin false ("No valid plugin structure found (main.lua/_meta.lua missing)")],
                  temp := some env.tempPath } := by
              unfold run
              rw [hb]
            rw [hrun, finallyStep_lookup]
            · dsimp only
              rw [foldSet_lookup_diverge hdiv,
                fsLookup_fsSet_diverge (diverges_append_left hdiv _),
                fsLookup_fsSet_diverge hdiv]
            · intro p hp
              simp at hp
              subst hp
              exact hdiv

/-- Claim C1, counterexample: for a base directory whose entry named
main.lua is a directory and whose entry named _meta.lua is a file,
find_plugin_root returns the base itself, although no directory anywhere in
the tree directly contains both markers as files — the claim requires
absent here.  The direct-root check uses bare existence (Path.exists),
while the recursive search checks file children only. -/
theorem C1_counterexample :
    find_plugin_root cexC1base = some [] ∧
    ∀ x ∈ preorder cexC1base, hasBothMarkerFiles x.2 = false := by
  constructor
  · decide
  · decide

/-- Claim C1, amended: if base directly contains entries named main.lua and
_meta.lua of any kind, locate returns base immediately; otherwise it
returns the first directory of the deterministic topdown traversal whose
direct children include both markers as files, and it returns absent
exactly when, in addition, no directory of the tree directly contains both
marker files. -/
theorem C1_theorem (base : Entry) :
    (bothMarkersExist base = true → find_plugin_root base = some []) ∧
    (bothMarkersExist base = false →
      find_plugin_root base
        = ((preorder base).find? (fun x => hasBothMarkerFiles x.2)).map (fun x => x.1)) ∧
    (bothMarkersExist base = false →
      (find_plugin_root base = none ↔
        ∀ x ∈ preorder base, hasBothMarkerFiles x.2 = false)) := by
  have hpart2 : bothMarkersExist base = false →
      find_plugin_root base
        = ((preorder base).find? (fun x => hasBothMarkerFiles x.2)).map (fun x => x.1) := by
    intro h
    rw [find_plugin_root, h]
    simp only [Bool.false_eq_true, if_false]
    exact walkFind_eq base
  refine ⟨?_, hpart2, ?_⟩
  · intro h
    simp [find_plugin_root, h]
  · intro h
    rw [hpart2 h]
    constructor
    · intro hnone x hx
      rw [Option.map_eq_none'] at hnone
      have h2 := List.find?_eq_none.mp hnone x hx
      simpa using h2
    · intro hall
      rw [Option.map_eq_none']
      exact List.find?_eq_none.mpr (fun x hx => by simp [hall x hx])

/-- Claim C1, witness: a base holding both marker files is returned
directly. -/
theorem C1_witness : find_plugin_root wC1base = some [] :=
  (C1_theorem wC1base).1 (by decide)

/-- Claim C2: for a run whose kind tag is plugin or patch, the finished
outcome is emitted exactly once, and a raised exception anywhere in the try
block surfaces as the single outcome (false, "Error: " ++ detail). -/
theorem C2_theorem (env : Env)
    (hk : env.item_type = "plugin" ∨ env.item_type = "patch") :
    (finEvs (run env)).length = 1 ∧
    (∀ e s1, runBody env (initSt env) = .error (e, s1) →
      finEvs (run env) = [Ev.fin false ("Error: " ++ e)]) :=
  ⟨run_finCount env hk, fun e s1 hb => run_errMsg env e s1 hb⟩

/-- Claim C2, witness: a patch run whose item data lookup raises emits the
Error outcome exactly once. -/
theorem C2_witness :
    finEvs (run wEnvC2) = [Ev.fin false ("Error: " ++ "KeyError")] :=
  (C2_theorem wEnvC2 (Or.inr rfl)).2 ("KeyError") (initSt wEnvC2) rfl

/-- Claim C3: when the workspace paths do not overlap the install root and a
run created the Extraction Workspace, the finally block attempts its
removal on that exit path, and when the removal succeeds the workspace no
longer exists afterwards.  (That the outcome is unchanged by a failing
removal is part of C2: the finished events are fixed before cleanup.) -/
theorem C3_theorem (env : Env)
    (hdiv : diverges env.tempPath env.install_path = true)
    (hsome : (run env).temp.isSome = true) :
    Ev.cleanup ∈ (run env).evs ∧
      (env.rmtreeTempOk = true → fsExists (run env).fs env.tempPath = false) :=
  run_cleanup env hdiv hsome

/-- Claim C3, witness: a run failing during the zip write still removes its
workspace. -/
theorem C3_witness :
    Ev.cleanup ∈ (run wEnvC3).evs ∧
      (wEnvC3.rmtreeTempOk = true → fsExists (run wEnvC3).fs wEnvC3.tempPath = false) :=
  C3_theorem wEnvC3 (by decide) (by decide)

/-- Claim C4: an absent or empty archive fetch ends a plugin run with the
outcome (false, "Failed to download repository"), and an absent or empty
patch list ends a patch run with (false, "No patches found"); in both cases
no workspace is created and the filesystem is untouched. -/
theorem C4_theorem (env : Env) (ow repo : String)
    (how : env.ownerLogin = .ok ow) (hre : env.repoName = .ok repo) :
    (env.item_type = "plugin" →
      ∀ zc, env.zipFetch = .ok zc → pyFalsy zc = true →
        finEvs (run env) = [Ev.fin false ("Failed to download repository")] ∧
        (run env).temp = none ∧ (run env).fs = env.fs0) ∧
    (env.item_type = "patch" →
      ∀ pl, env.patchList = .ok pl → pyFalsyList pl = true →
        finEvs (run env) = [Ev.fin false ("No patches found")] ∧
        (run env).temp = none ∧ (run env).fs = env.fs0) := by
  constructor
  · intro hty zc hfe hfal
    have hb := body_fetch_empty env ow repo zc hty how hre hfe hfal
    rw [run_of_body_ok_none env _ hb rfl]
    exact ⟨by simp [finEvs, isFin], rfl, rfl⟩
  · intro hty pl hpl hfal
    have hb := body_patch_empty env ow repo pl hty how hre hpl hfal
    rw [run_of_body_ok_none env _ hb rfl]
    exact ⟨by simp [finEvs, isFin], rfl, rfl⟩

/-- Claim C4, witness: the base environment fetches nothing. -/
theorem C4_witness :
    finEvs (run baseEnv) = [Ev.fin false ("Failed to download repository")] ∧
      (run baseEnv).temp = none ∧ (run baseEnv).fs = baseEnv.fs0 :=
  (C4_theorem baseEnv ("x") "y" rfl rfl).1 rfl none rfl (by decide)

/-- Claim C5: on a successful plugin install, after the run the Install
Target path holds exactly the located candidate subtree of the fresh
workspace — a value determined by the fetched archive alone, independent of
the initial filesystem.  In particular any prior entry at the target
(including the result of an earlier install of the same package) is
replaced, not merged: two runs in a row leave the second run's tree. -/
theorem C5_theorem (env : Env) (ow repo zc : String)
    (entries : List (String × Entry)) (rel : FsPath) (subT : Entry)
    (hty : env.item_type = "plugin")
    (how : env.ownerLogin = .ok ow) (hre : env.repoName = .ok repo)
    (hfe : env.zipFetch = .ok (some zc)) (hzne : zc.isEmpty = false)
    (hmk : env.mkdtempOk = .ok ()) (hwz : env.writeZipOk = .ok ())
    (hun : env.unzip = .ok entries)
    (hloc : find_plugin_root (buildTemp repo zc entries) = some rel)
    (hsub : fsLookup (buildTemp repo zc entries) rel = some subT)
    (hrt : env.rmtreeTargetOk = .ok ()) (hcp : env.copyOk = .ok ())
    (hdiv : diverges env.tempPath env.install_path = true) :
    fsLookup (run env).fs (env.install_path ++
      ["plugins", deriveName (pathName (env.tempPath ++ rel))]) = some subT ∧
    finEvs (run env) = [Ev.fin true (if env.is_update then repo ++ " updated successfully!"
      else repo ++ " installed successfully!")] :=
  run_plugin_ok env ow repo zc entries rel subT hty how hre hfe hzne hmk hwz hun
    hloc hsub hrt hcp hdiv

/-- Claim C5, witness: a repository-style archive is installed at
ko/plugins/cool.koplugin. -/
theorem C5_witness :
    fsLookup (run wEnvC5).fs ["ko", "plugins", "cool.koplugin"] = some wSubT ∧
      finEvs (run wEnvC5) = [Ev.fin true ("y installed successfully!")] :=
  C5_theorem wEnvC5 ("x") "y" "Z" goodEntries ["repo-main", "cool.koplugin"] wSubT
    rfl rfl rfl rfl (by decide) rfl rfl rfl (by decide) rfl rfl rfl (by decide)

/-- Claim C6: a plugin run that fails before the copy step — raised or
empty download, workspace creation, zip write or extraction failure, or no
plugin root located — leaves the entire install-root subtree exactly as it
was, so any pre-existing Install Target is untouched. -/
theorem C6_theorem (env : Env) (ow repo : String)
    (hty : env.item_type = "plugin") (how : env.ownerLogin = .ok ow)
    (hre : env.repoName = .ok repo)
    (hdiv : diverges env.tempPath env.install_path = true)
    (hfb : failsBeforeCopy env repo = true) :
    fsLookup (run env).fs env.install_path = fsLookup env.fs0 env.install_path :=
  run_frame_before_copy env ow repo hty how hre hdiv hfb

/-- Claim C6, witness: a failed download leaves the pre-existing install
target untouched. -/
theorem C6_witness :
    fsLookup (run wEnvC6).fs wEnvC6.install_path = fsLookup wEnvC6.fs0 wEnvC6.install_path :=
  C6_theorem wEnvC6 ("x") "y" rfl rfl rfl (by decide) (by decide)

/-- Claim C7: a patch run with a non-empty list of n patches, all of whose
fetches succeed, writes one file per patch under install-root/patches
(creating the directory if absent) and finishes with
(true, "n patch(es) installed!"). -/
theorem C7_theorem (env : Env) (ow repo : String) (pats : List PatchFile)
    (hty : env.item_type = "patch") (how : env.ownerLogin = .ok ow)
    (hre : env.repoName = .ok repo)
    (hpl : env.patchList = .ok (some pats)) (hne : pats.isEmpty = false)
    (hdir : isDirAt env.fs0 env.install_path = true)
    (hnf : noFileAt env.fs0 (env.install_path ++ ["patches"]) = true)
    (hget : ∀ p ∈ pats, exOk (env.patchGet p.download_url) = true) :
    finEvs (run env) = [Ev.fin true (toString pats.length ++ " patch(es) installed!")] ∧
    ∀ p ∈ pats, fsExists (run env).fs (env.install_path ++ ["patches", p.name]) = true := by
  obtain ⟨s1, hb, htemp, hevs, hex⟩ :=
    body_patch_ok env ow repo pats hty how hre hpl hne hdir hnf hget
  rw [run_of_body_ok_none env s1 hb htemp]
  refine ⟨?_, hex⟩
  rw [finEvs, hevs]
  rfl

/-- Claim C7, witness: two patches are written and counted. -/
theorem C7_witness :
    finEvs (run wEnvC7) = [Ev.fin true ("2 patch(es) installed!")] ∧
      ∀ p ∈ [(⟨"a.lua", "u1"⟩ : PatchFile), ⟨"b.lua", "u2"⟩],
        fsExists (run wEnvC7).fs (wEnvC7.install_path ++ ["patches", p.name]) = true :=
  C7_theorem wEnvC7 ("x") "y" [⟨"a.lua", "u1"⟩, ⟨"b.lua", "u2"⟩]
    rfl rfl rfl rfl (by decide) (by decide) (by decide) (by decide)

/-- Claim C8: the install-name derivation appends ".koplugin" exactly when
it is not already a suffix, never doubles it, and is idempotent; in
particular both "foo" and "foo.koplugin" map to "foo.koplugin". -/
theorem C8_theorem (s : String) :
    (pyEndsWith s (".koplugin") = true → deriveName s = s) ∧
    (pyEndsWith s (".koplugin") = false → deriveName s = s ++ ".koplugin") ∧
    deriveName (deriveName s) = deriveName s ∧
    deriveName ("foo") = "foo.koplugin" ∧
    deriveName ("foo.koplugin") = "foo.koplugin" := by
  refine ⟨?_, ?_, ?_, by decide, by decide⟩
  · intro h
    simp [deriveName, h]
  · intro h
    simp [deriveName, h]
  · by_cases h : pyEndsWith s (".koplugin") = true
    · simp [deriveName, h]
    · rw [Bool.not_eq_true] at h
      have h2 : deriveName s = s ++ ".koplugin" := by simp [deriveName, h]
      rw [h2]
      simp [deriveName, pyEndsWith_append]

/-- Claim C8, witness: a bare name gets the extension appended. -/
theorem C8_witness : deriveName ("abc") = "abc" ++ ".koplugin" :=
  (C8_theorem ("abc")).2.1 (by decide)

/-- Claim C9, counterexample: a run that created an Extraction Workspace
emits its terminal outcome first and performs the CleaningUp removal after
it — the event trace ends with the finished event followed by the cleanup
event, refuting the claimed order CleaningUp before Succeeded/Failed. -/
theorem C9_counterexample :
    (run cexEnvC9).temp.isSome = true ∧
    (run cexEnvC9).evs = [Ev.prog ("Downloading y..."),
      Ev.fin false ("Error: disk"), Ev.cleanup] := by
  constructor
  · decide
  · decide

/-- Claim C9, amended: ordering events by the pipeline phase they belong to
(downloading 1, extracting 2, locating 3, staging and committing 4,
terminal outcome 5, workspace cleanup 6), every run's event trace is
strictly increasing: the linear state order is respected, no state is
revisited, and the CleaningUp removal happens after — not before — the
terminal outcome is emitted. -/
theorem C9_theorem (env : Env) :
    List.Chain' (· < ·) ((run env).evs.map evRank) :=
  (strictIncr_chain _).mp (run_chain env)

/-- Claim C10: a run whose kind tag is neither plugin nor patch, and whose
item-data lookups succeed, terminates silently: no progress event, no
finished event, no workspace, no filesystem change. -/
theorem C10_theorem (env : Env) (ow repo : String)
    (how : env.ownerLogin = .ok ow) (hre : env.repoName = .ok repo)
    (h1 : env.item_type ≠ "plugin") (h2 : env.item_type ≠ "patch") :
    (run env).evs = [] ∧ (run env).fs = env.fs0 ∧ (run env).temp = none := by
  have hb : runBody env (initSt env) = .ok (initSt env) := by
    simp [runBody, how, hre, h1, h2]
  rw [run_of_body_ok_none env _ hb rfl]
  exact ⟨rfl, rfl, rfl⟩

/-- Claim C10, witness: a run with kind tag "theme" emits nothing. -/
theorem C10_witness :
    (run wEnvC10).evs = [] ∧ (run wEnvC10).fs = wEnvC10.fs0 ∧
      (run wEnvC10).temp = none :=
  C10_theorem wEnvC10 ("x") "y" rfl rfl (by decide) (by decide)

end KoStore
